import Mathlib

/-!
# kyoo: a worker-pool job queue

A verification development for `jobqueue.go`, `worker.go` and
`job/func_executor.go`.

* `FuncExecutorJob.Process` is embedded as a function on the job and the
  other variables of the program; the wrapped function is a closure that may
  read and assign both.
* The queue is embedded as a labelled transition system.  Every goroutine (the
  caller of `Start`, the dispatcher, each worker, each client calling `Submit`
  or `Stop`) has a program counter that names the statement it executes next;
  a send and a receive on an unbuffered channel are one joint transition of
  the two goroutines involved.  A mutex-protected read or write of `stopped`
  is one transition of the goroutine holding the lock.
* `NewJobQueue` takes a Go `int`; a negative argument makes `make` panic, so
  the worker count is a natural number here.
* `Start` is called once and clients call `Submit` and `Stop` after it has
  returned.  A job is an opaque value whose `Process` begins and returns.
* A goroutine that panics stops; the others are allowed to go on, so every
  execution of the program is an execution of the system.
-/

namespace Kyoo

/-! ## `job/func_executor.go` -/

/-- A Go `error`: `none` is `nil`. -/
abbrev GoError := Option String

/-- The struct `FuncExecutorJob`.  `Func` is nil (`none`) or one of the
closures of the program, named by its number. -/
structure FuncExecutorJob where
  Err : GoError
  Func : Option Nat
  deriving DecidableEq, Repr

/-- What a call of a closure can reach: the job (a closure can capture the
pointer to the job it is stored in, and read and assign its fields) and the
other variables of the program; with the number of calls `Process` has made. -/
structure World (σ : Type) where
  job : FuncExecutorJob
  env : σ
  calls : Nat

/-- The closures of a program: what a call of closure `f` returns and what it
leaves in the job and in the other variables.  A call is taken to return. -/
abbrev Closures (σ : Type) := Nat → FuncExecutorJob × σ → GoError × (FuncExecutorJob × σ)

/-- A call `f()` of a closure. -/
def invoke {σ : Type} (closures : Closures σ) (f : Nat) (w : World σ) : GoError × World σ :=
  ((closures f (w.job, w.env)).1,
    { job := (closures f (w.job, w.env)).2.1
      env := (closures f (w.job, w.env)).2.2
      calls := w.calls + 1 })

/-- The method `Process` on the job of `w`: `job.Err = job.Func()`.  The call
of a nil `Func` is a nil dereference (`none`). -/
def FuncExecutorJob.Process {σ : Type} (closures : Closures σ) (w : World σ) :
    Option (World σ) :=
  match w.job.Func with
  | none => none
  | some f =>
    let r := invoke closures f w
    some { r.2 with job := { r.2.job with Err := r.1 } }

/-- The closures of the tests and one more.  Closure 0 sets `funcExecuted`
(the environment) and succeeds; closure 1 fails with an error; closure 2
captures its job, assigns closure 0 to the job's `Func` and succeeds. -/
def testClosures : Closures Bool
  | 0, (job, _) => (none, (job, true))
  | 1, (job, env) => (some "Error while executing function", (job, env))
  | 2, (job, env) => (none, ({ job with Func := some 0 }, env))
  | _, (job, env) => (none, (job, env))

/-! ## `worker.go`, `jobqueue.go`: data -/

/-- A job is identified by a number; `Process` of a job is a call that begins
and later returns. -/
abbrev Job := Nat

/-- Where the goroutine of `Worker.Start` stands.  `add`: before
`w.done.Add(1)`; `register`: before `w.readyPool <- w.assignedJobQueue`;
`select`: at the `select`; `received j`: after `job := <-w.assignedJobQueue`,
before the call `job.Process()` (`j = none` is the nil job);
`processing j`: inside `job.Process()`;
`exiting`: before `w.done.Done()`. -/
inductive WorkerPC
  | unspawned
  | add
  | register
  | select
  | received (j : Option Job)
  | processing (j : Job)
  | exiting
  | exited
  | panicked
  deriving DecidableEq, Repr

/-- Where the goroutine of `JobQueue.dispatch` stands.  `haveJob j`: before
`workerChannel := <-q.readyPool` (`j = none` is the nil job received from a
closed channel); `haveWorker j w`: before `workerChannel <- job` with the
channel of worker `w`; `stopping i`: in the loop over the workers, before
`q.workers[i].Stop()`; `waitWorkers`: before `q.workersStopped.Wait()`;
`done`: before `q.dispatcherStopped.Done()`. -/
inductive DispPC
  | unspawned
  | add
  | select
  | haveJob (j : Option Job)
  | haveWorker (j : Option Job) (w : Nat)
  | stopping (i : Nat)
  | waitWorkers
  | done
  | exited
  | panicked
  deriving DecidableEq, Repr

/-- Where the caller of `JobQueue.Start` stands. -/
inductive MainPC
  | startWorkers (i : Nat)
  | goDispatch
  | newMutex
  | setStopped
  | returned
  deriving DecidableEq, Repr

/-- A call a client makes on the queue. -/
inductive Op
  | submit (j : Job)
  | stop
  deriving DecidableEq, Repr

/-- Where a client stands.  `idle`: between two calls; `sending j`: in
`Submit`, before `q.internalQueue <- job`; `stopQuit`: in `Stop`, before
`q.quit <- true`; `stopWait`: before `q.dispatcherStopped.Wait()`;
`stopClose`: before `close(q.internalQueue)`. -/
inductive ClientPC
  | idle
  | sending (j : Job)
  | stopQuit
  | stopWait
  | stopClose
  | panicked
  deriving DecidableEq, Repr

/-- A client goroutine: its program counter and the calls it still has to
make. -/
structure Client where
  pc : ClientPC
  prog : List Op
  deriving DecidableEq, Repr

/-- The struct `JobQueue`.  `internalQueue` and `quit` are unbuffered, so all
their state is whether `internalQueue` is closed.  `readyPool` holds the
indices of the workers whose `assignedJobQueue` it buffers.  `workers` holds
the goroutine state of each `*Worker`.  The wait groups are their counters.
`stoppedMutex` is `false` while the field is nil. -/
structure JobQueue where
  internalQueueClosed : Bool
  readyPool : List Nat
  readyPoolCap : Nat
  workers : List WorkerPC
  dispatcherStopped : Nat
  workersStopped : Nat
  stopped : Bool
  stoppedMutex : Bool
  deriving DecidableEq, Repr

/-- The function `NewJobQueue`. -/
def NewJobQueue (maxWorkers : Nat) : JobQueue :=
  { internalQueueClosed := false
    readyPool := []
    readyPoolCap := maxWorkers
    workers := List.replicate maxWorkers WorkerPC.unspawned
    dispatcherStopped := 0
    workersStopped := 0
    stopped := false
    stoppedMutex := false }

/-- The method `getStopped`; `none` is the nil dereference of
`q.stoppedMutex.Lock()`. -/
def JobQueue.getStopped (q : JobQueue) : Option Bool :=
  if q.stoppedMutex then some q.stopped else none

/-- The method `setStopped`; `none` is the nil dereference of
`q.stoppedMutex.Lock()`. -/
def JobQueue.setStopped (q : JobQueue) (b : Bool) : Option JobQueue :=
  if q.stoppedMutex then some { q with stopped := b } else none

/-- The method `Stopped`. -/
def JobQueue.Stopped (q : JobQueue) : Option Bool :=
  q.getStopped

/-- The queue, its goroutines, and a record of what has happened: `accepted`
lists the jobs the dispatcher received from `internalQueue`, `started` the
jobs whose `Process` began, `finished` the jobs whose `Process` returned,
`returned` the jobs whose `Submit` returned, `stopCalled` whether `Stop` has
been entered and `stopReturned` whether a `Stop` has returned. -/
structure State extends JobQueue where
  main : MainPC
  disp : DispPC
  clients : List Client
  accepted : List Job
  started : List Job
  finished : List Job
  returned : List Job
  stopCalled : Bool
  stopReturned : Bool
  deriving DecidableEq, Repr

/-- The queue after `NewJobQueue(maxWorkers)`, with one client per program,
before `Start` is called. -/
def initState (maxWorkers : Nat) (progs : List (List Op)) : State :=
  { toJobQueue := NewJobQueue maxWorkers
    main := MainPC.startWorkers 0
    disp := DispPC.unspawned
    clients := progs.map fun p => { pc := ClientPC.idle, prog := p }
    accepted := []
    started := []
    finished := []
    returned := []
    stopCalled := false
    stopReturned := false }

/-! ## Transitions -/

/-- The transitions: a step of one goroutine on its own, or a rendezvous on an
unbuffered channel.  `submit c`: client `c` sends on `internalQueue` and the
dispatcher receives; `quit c`: client `c` sends on `q.quit` and the dispatcher
receives; `assign`: the dispatcher sends the job to the worker it checked out;
`stopWorker`: the dispatcher sends on the `quit` of the worker it is
stopping. -/
inductive Label
  | main
  | dispatcher
  | worker (i : Nat)
  | client (c : Nat)
  | submit (c : Nat)
  | quit (c : Nat)
  | assign
  | stopWorker
  deriving DecidableEq, Repr

/-- The method `Start`, one statement at a time. -/
def startStep (s : State) : Option State :=
  match s.main with
  | .startWorkers i =>
    if i < s.workers.length then
      some { s with workers := s.workers.set i .add, main := .startWorkers (i + 1) }
    else some { s with main := .goDispatch }
  | .goDispatch => some { s with disp := .add, main := .newMutex }
  | .newMutex => some { s with stoppedMutex := true, main := .setStopped }
  | .setStopped =>
    match s.toJobQueue.setStopped false with
    | some q => some { s with toJobQueue := q, main := .returned }
    | none => none
  | .returned => none

/-- The goroutine of `Worker.Start`, the steps it takes on its own.  The call
`job.Process()` begins in a step of its own, after the job has been received;
on a nil job it is a nil dereference. -/
def workerStep (i : Nat) (s : State) : Option State :=
  match s.workers[i]? with
  | some .add =>
    some { s with workers := s.workers.set i .register, workersStopped := s.workersStopped + 1 }
  | some .register =>
    if s.readyPool.length < s.readyPoolCap then
      some { s with workers := s.workers.set i .select, readyPool := s.readyPool ++ [i] }
    else none
  | some (.received (some j)) =>
    some { s with workers := s.workers.set i (.processing j), started := s.started ++ [j] }
  | some (.received none) => some { s with workers := s.workers.set i .panicked }
  | some (.processing j) =>
    some { s with workers := s.workers.set i .register, finished := s.finished ++ [j] }
  | some .exiting =>
    if s.workersStopped = 0 then some { s with workers := s.workers.set i .panicked }
    else some { s with workers := s.workers.set i .exited,
                       workersStopped := s.workersStopped - 1 }
  | _ => none

/-- The method `dispatch`, the steps it takes on its own. -/
def dispatchStep (s : State) : Option State :=
  match s.disp with
  | .add => some { s with disp := .select, dispatcherStopped := s.dispatcherStopped + 1 }
  | .select => if s.internalQueueClosed then some { s with disp := .haveJob none } else none
  | .haveJob j =>
    match s.readyPool with
    | w :: rest => some { s with disp := .haveWorker j w, readyPool := rest }
    | [] => none
  | .stopping i => if i < s.workers.length then none else some { s with disp := .waitWorkers }
  | .waitWorkers => if s.workersStopped = 0 then some { s with disp := .done } else none
  | .done =>
    if s.dispatcherStopped = 0 then some { s with disp := .panicked }
    else some { s with disp := .exited, dispatcherStopped := s.dispatcherStopped - 1 }
  | _ => none

/-- The methods `Submit` and `Stop` as called by client `c`, the steps the
client takes on its own.  No client runs before `Start` has returned. -/
def clientStep (c : Nat) (s : State) : Option State :=
  if s.main = .returned then
    match s.clients[c]? with
    | none => none
    | some cl =>
      match cl.pc, cl.prog with
      | .idle, .submit j :: rest =>
        match s.toJobQueue.getStopped with
        | none => some { s with clients := s.clients.set c ⟨.panicked, rest⟩ }
        | some true =>
          some { s with clients := s.clients.set c ⟨.idle, rest⟩, returned := s.returned ++ [j] }
        | some false => some { s with clients := s.clients.set c ⟨.sending j, rest⟩ }
      | .idle, .stop :: rest =>
        match s.toJobQueue.setStopped true with
        | none => some { s with clients := s.clients.set c ⟨.panicked, rest⟩, stopCalled := true }
        | some q =>
          some { s with toJobQueue := q, clients := s.clients.set c ⟨.stopQuit, rest⟩,
                        stopCalled := true }
      | .sending _, rest =>
        if s.internalQueueClosed then some { s with clients := s.clients.set c ⟨.panicked, rest⟩ }
        else none
      | .stopWait, rest =>
        if s.dispatcherStopped = 0 then
          some { s with clients := s.clients.set c ⟨.stopClose, rest⟩ }
        else none
      | .stopClose, rest =>
        if s.internalQueueClosed then some { s with clients := s.clients.set c ⟨.panicked, rest⟩ }
        else some { s with internalQueueClosed := true, clients := s.clients.set c ⟨.idle, rest⟩,
                           stopReturned := true }
      | _, _ => none
  else none

/-- The send `q.internalQueue <- job` of client `c` meets the receive
`job := <-q.internalQueue` of the dispatcher; `Submit` returns. -/
def submitRendezvous (c : Nat) (s : State) : Option State :=
  match s.clients[c]?, s.disp with
  | some ⟨.sending j, rest⟩, .select =>
    if s.internalQueueClosed then none
    else some { s with disp := .haveJob (some j), clients := s.clients.set c ⟨.idle, rest⟩,
                       accepted := s.accepted ++ [j], returned := s.returned ++ [j] }
  | _, _ => none

/-- The send `q.quit <- true` of client `c` meets the receive `<-q.quit` of the
dispatcher. -/
def quitRendezvous (c : Nat) (s : State) : Option State :=
  match s.clients[c]?, s.disp with
  | some ⟨.stopQuit, rest⟩, .select =>
    some { s with disp := .stopping 0, clients := s.clients.set c ⟨.stopWait, rest⟩ }
  | _, _ => none

/-- The send `workerChannel <- job` of the dispatcher meets the receive
`job := <-w.assignedJobQueue` of the worker, which has the job and has not yet
called `job.Process()`. -/
def assignRendezvous (s : State) : Option State :=
  match s.disp with
  | .haveWorker j w =>
    match s.workers[w]? with
    | some .select => some { s with disp := .select, workers := s.workers.set w (.received j) }
    | _ => none
  | _ => none

/-- The send `w.quit <- true` of `Worker.Stop`, called by the dispatcher for
worker `i`, meets the receive `<-w.quit` of that worker. -/
def stopWorkerRendezvous (s : State) : Option State :=
  match s.disp with
  | .stopping i =>
    match s.workers[i]? with
    | some .select => some { s with disp := .stopping (i + 1), workers := s.workers.set i .exiting }
    | _ => none
  | _ => none

/-- One transition of the system. -/
def step : Label → State → Option State
  | .main, s => startStep s
  | .dispatcher, s => dispatchStep s
  | .worker i, s => workerStep i s
  | .client c, s => clientStep c s
  | .submit c, s => submitRendezvous c s
  | .quit c, s => quitRendezvous c s
  | .assign, s => assignRendezvous s
  | .stopWorker, s => stopWorkerRendezvous s

/-- Run a schedule. -/
def run : List Label → State → Option State
  | [], s => some s
  | l :: ls, s => (step l s).bind (run ls)

/-- The states an execution from `s0` passes through. -/
inductive Reachable (s0 : State) : State → Prop
  | init : Reachable s0 s0
  | step {s s' : State} (l : Label) : Reachable s0 s → step l s = some s' → Reachable s0 s'

/-! ## Vocabulary of the statements and proofs -/

/-- The transitions of `step`, one constructor for each statement the
goroutines execute. -/
inductive Step (s : State) : State → Prop
  | spawn (i : Nat) (hm : s.main = .startWorkers i) (hi : i < s.workers.length) :
      Step s { s with workers := s.workers.set i .add, main := .startWorkers (i + 1) }
  | spawnDone (i : Nat) (hm : s.main = .startWorkers i) (hi : ¬ i < s.workers.length) :
      Step s { s with main := .goDispatch }
  | goDispatch (hm : s.main = .goDispatch) : Step s { s with disp := .add, main := .newMutex }
  | newMutex (hm : s.main = .newMutex) :
      Step s { s with stoppedMutex := true, main := .setStopped }
  | setStopped (hm : s.main = .setStopped) (hx : s.stoppedMutex = true) :
      Step s { s with stopped := false, main := .returned }
  | dispAdd (hd : s.disp = .add) :
      Step s { s with disp := .select, dispatcherStopped := s.dispatcherStopped + 1 }
  | recvClosed (hd : s.disp = .select) (hq : s.internalQueueClosed = true) :
      Step s { s with disp := .haveJob none }
  | checkout (j : Option Job) (w : Nat) (rest : List Nat) (hd : s.disp = .haveJob j)
      (hp : s.readyPool = w :: rest) :
      Step s { s with disp := .haveWorker j w, readyPool := rest }
  | stopLoopDone (i : Nat) (hd : s.disp = .stopping i) (hi : ¬ i < s.workers.length) :
      Step s { s with disp := .waitWorkers }
  | waitWorkers (hd : s.disp = .waitWorkers) (hz : s.workersStopped = 0) :
      Step s { s with disp := .done }
  | dispDonePanic (hd : s.disp = .done) (hz : s.dispatcherStopped = 0) :
      Step s { s with disp := .panicked }
  | dispDone (hd : s.disp = .done) (hz : ¬ s.dispatcherStopped = 0) :
      Step s { s with disp := .exited, dispatcherStopped := s.dispatcherStopped - 1 }
  | workerAdd (i : Nat) (hw : s.workers[i]? = some .add) :
      Step s { s with workers := s.workers.set i .register,
                      workersStopped := s.workersStopped + 1 }
  | register (i : Nat) (hw : s.workers[i]? = some .register)
      (hp : s.readyPool.length < s.readyPoolCap) :
      Step s { s with workers := s.workers.set i .select, readyPool := s.readyPool ++ [i] }
  | begin (i : Nat) (j : Job) (hw : s.workers[i]? = some (.received (some j))) :
      Step s { s with workers := s.workers.set i (.processing j), started := s.started ++ [j] }
  | beginNil (i : Nat) (hw : s.workers[i]? = some (.received none)) :
      Step s { s with workers := s.workers.set i .panicked }
  | finish (i : Nat) (j : Job) (hw : s.workers[i]? = some (.processing j)) :
      Step s { s with workers := s.workers.set i .register, finished := s.finished ++ [j] }
  | workerDonePanic (i : Nat) (hw : s.workers[i]? = some .exiting) (hz : s.workersStopped = 0) :
      Step s { s with workers := s.workers.set i .panicked }
  | workerDone (i : Nat) (hw : s.workers[i]? = some .exiting) (hz : ¬ s.workersStopped = 0) :
      Step s { s with workers := s.workers.set i .exited,
                      workersStopped := s.workersStopped - 1 }
  | submitNil (c : Nat) (cl : Client) (j : Job) (rest : List Op) (hm : s.main = .returned)
      (hc : s.clients[c]? = some cl) (hpc : cl.pc = .idle) (hpr : cl.prog = .submit j :: rest)
      (hx : s.stoppedMutex = false) :
      Step s { s with clients := s.clients.set c ⟨.panicked, rest⟩ }
  | submitDropped (c : Nat) (cl : Client) (j : Job) (rest : List Op) (hm : s.main = .returned)
      (hc : s.clients[c]? = some cl) (hpc : cl.pc = .idle) (hpr : cl.prog = .submit j :: rest)
      (hx : s.stoppedMutex = true) (hs : s.stopped = true) :
      Step s { s with clients := s.clients.set c ⟨.idle, rest⟩, returned := s.returned ++ [j] }
  | submitEnter (c : Nat) (cl : Client) (j : Job) (rest : List Op) (hm : s.main = .returned)
      (hc : s.clients[c]? = some cl) (hpc : cl.pc = .idle) (hpr : cl.prog = .submit j :: rest)
      (hx : s.stoppedMutex = true) (hs : s.stopped = false) :
      Step s { s with clients := s.clients.set c ⟨.sending j, rest⟩ }
  | stopNil (c : Nat) (cl : Client) (rest : List Op) (hm : s.main = .returned)
      (hc : s.clients[c]? = some cl) (hpc : cl.pc = .idle) (hpr : cl.prog = .stop :: rest)
      (hx : s.stoppedMutex = false) :
      Step s { s with clients := s.clients.set c ⟨.panicked, rest⟩, stopCalled := true }
  | stopEnter (c : Nat) (cl : Client) (rest : List Op) (hm : s.main = .returned)
      (hc : s.clients[c]? = some cl) (hpc : cl.pc = .idle) (hpr : cl.prog = .stop :: rest)
      (hx : s.stoppedMutex = true) :
      Step s { s with stopped := true, clients := s.clients.set c ⟨.stopQuit, rest⟩,
                      stopCalled := true }
  | sendClosed (c : Nat) (cl : Client) (j : Job) (hm : s.main = .returned)
      (hc : s.clients[c]? = some cl) (hpc : cl.pc = .sending j)
      (hq : s.internalQueueClosed = true) :
      Step s { s with clients := s.clients.set c ⟨.panicked, cl.prog⟩ }
  | stopWaitDone (c : Nat) (cl : Client) (hm : s.main = .returned)
      (hc : s.clients[c]? = some cl) (hpc : cl.pc = .stopWait) (hz : s.dispatcherStopped = 0) :
      Step s { s with clients := s.clients.set c ⟨.stopClose, cl.prog⟩ }
  | closeClosed (c : Nat) (cl : Client) (hm : s.main = .returned)
      (hc : s.clients[c]? = some cl) (hpc : cl.pc = .stopClose)
      (hq : s.internalQueueClosed = true) :
      Step s { s with clients := s.clients.set c ⟨.panicked, cl.prog⟩ }
  | close (c : Nat) (cl : Client) (hm : s.main = .returned)
      (hc : s.clients[c]? = some cl) (hpc : cl.pc = .stopClose)
      (hq : ¬ s.internalQueueClosed = true) :
      Step s { s with internalQueueClosed := true, clients := s.clients.set c ⟨.idle, cl.prog⟩,
                      stopReturned := true }
  | submit (c : Nat) (j : Job) (rest : List Op) (hc : s.clients[c]? = some ⟨.sending j, rest⟩)
      (hd : s.disp = .select) (hq : ¬ s.internalQueueClosed = true) :
      Step s { s with disp := .haveJob (some j), clients := s.clients.set c ⟨.idle, rest⟩,
                      accepted := s.accepted ++ [j], returned := s.returned ++ [j] }
  | quit (c : Nat) (rest : List Op) (hc : s.clients[c]? = some ⟨.stopQuit, rest⟩)
      (hd : s.disp = .select) :
      Step s { s with disp := .stopping 0, clients := s.clients.set c ⟨.stopWait, rest⟩ }
  | assign (j : Option Job) (w : Nat) (hd : s.disp = .haveWorker j w)
      (hw : s.workers[w]? = some .select) :
      Step s { s with disp := .select, workers := s.workers.set w (.received j) }
  | stopWorker (i : Nat) (hd : s.disp = .stopping i) (hw : s.workers[i]? = some .select) :
      Step s { s with disp := .stopping (i + 1), workers := s.workers.set i .exiting }

/-- The dispatcher has received the quit signal. -/
def DispPC.stopPhase : DispPC → Bool
  | .stopping _ | .waitWorkers | .done | .exited => true
  | _ => false

/-- The client is inside `Stop`. -/
def ClientPC.inStop : ClientPC → Bool
  | .stopQuit | .stopWait | .stopClose => true
  | _ => false

/-- The invariant of the `stopped` flag and its mutex: the mutex exists once
`Start` has created it, the flag is false from the return of `Start` until
`Stop` is entered and true from then on, and nothing of `Stop` happens before
`Stop` is entered. -/
structure FlagInv (s : State) : Prop where
  mutex : s.main = .setStopped ∨ s.main = .returned → s.stoppedMutex = true
  notCalled : s.main = .returned → s.stopCalled = false → s.stopped = false
  called : s.stopCalled = true → s.stopped = true ∧ s.main = .returned
  ret : s.stopReturned = true → s.stopCalled = true
  inStop : ∀ cl ∈ s.clients, cl.pc.inStop = true → s.stopCalled = true
  flagSet : s.stopped = true → s.stopCalled = true
  phase : s.disp.stopPhase = true → s.stopCalled = true

/-- The worker has executed `w.done.Add(1)` and not yet `w.done.Done()`. -/
def WorkerPC.inWaitGroup : WorkerPC → Bool
  | .register | .select | .received _ | .processing _ | .exiting => true
  | _ => false

/-- The worker has received its quit signal. -/
def WorkerPC.gone : WorkerPC → Bool
  | .exiting | .exited => true
  | _ => false

/-- The dispatcher has executed `q.dispatcherStopped.Add(1)` and not yet
`q.dispatcherStopped.Done()`. -/
def DispPC.counted : DispPC → Bool
  | .unspawned | .add | .exited | .panicked => false
  | _ => true

/-- What the dispatcher's position says about worker `k`. -/
def goneOk (d : DispPC) (k : Nat) (pc : WorkerPC) : Prop :=
  match d with
  | .stopping i => (pc.gone = true ↔ k < i)
  | .waitWorkers => pc.gone = true
  | .done | .exited => pc = .exited
  | .panicked => True
  | _ => pc.gone = false

/-- What the position of `Start` says about worker `k`. -/
def spawnOk (m : MainPC) (k : Nat) (pc : WorkerPC) : Prop :=
  match m with
  | .startWorkers i => (pc = .unspawned ↔ i ≤ k)
  | _ => pc ≠ .unspawned

/-- What the position of `Start` says about the dispatcher. -/
def dispOk (m : MainPC) (d : DispPC) : Prop :=
  match m with
  | .startWorkers _ | .goDispatch => d = .unspawned
  | _ => d ≠ .unspawned

/-- The invariant of start-up and shutdown: which goroutines exist at each
point of `Start`, what the two wait-group counters count, which workers have
been stopped at each point of the dispatcher's quit branch, that the
submission channel is closed only after the dispatcher has exited, and that
no goroutine of the queue panics. -/
structure CoreInv (s : State) : Prop where
  len : s.workers.length = s.readyPoolCap
  spawn : ∀ k pc, s.workers[k]? = some pc → spawnOk s.main k pc
  dm : dispOk s.main s.disp
  wg : s.workersStopped = s.workers.countP WorkerPC.inWaitGroup
  dwg : s.dispatcherStopped = if s.disp.counted then 1 else 0
  gone : ∀ k pc, s.workers[k]? = some pc → goneOk s.disp k pc
  closed : s.internalQueueClosed = true → s.disp = .exited
  cw : ∀ cl ∈ s.clients, cl.pc = .stopWait ∨ cl.pc = .stopClose → s.disp.stopPhase = true
  cc : ∀ cl ∈ s.clients, cl.pc = .stopClose → s.disp = .exited
  sr : s.stopReturned = true → s.internalQueueClosed = true
  nowp : ∀ pc ∈ s.workers, pc ≠ .panicked
  js : s.disp ≠ .haveJob none ∧ ∀ w, s.disp ≠ .haveWorker none w
  nodp : s.disp ≠ .panicked
  rs : ∀ pc ∈ s.workers, pc ≠ .received none

/-- The ready pool holds each worker at most once, only workers waiting at
their `select` (or stopped there), and every worker waiting at its `select` is
either in the pool or checked out by the dispatcher. -/
structure PoolInv (s : State) : Prop where
  nodup : s.readyPool.Nodup
  pmem : ∀ w ∈ s.readyPool, ∃ pc, s.workers[w]? = some pc ∧
    (pc = .select ∨ pc = .exiting ∨ pc = .exited)
  sel : ∀ w : Nat, s.workers[w]? = some .select → w ∈ s.readyPool ∨ ∃ j, s.disp = .haveWorker j w
  hw : ∀ j w, s.disp = .haveWorker j w → s.workers[w]? = some .select ∧ w ∉ s.readyPool

/-- The job a worker is running `Process` on. -/
def WorkerPC.job : WorkerPC → Option Job
  | .processing j => some j
  | _ => none

/-- The job the dispatcher has received and not yet handed to a worker. -/
def DispPC.held : DispPC → Option Job
  | .haveJob j => j
  | .haveWorker j _ => j
  | _ => none

/-- The job a worker holds: received and not yet begun, or in `Process`. -/
def WorkerPC.holds : WorkerPC → Option Job
  | .received j => j
  | .processing j => some j
  | _ => none

/-- The jobs whose `Process` is running. -/
def State.active (s : State) : List Job := s.workers.filterMap WorkerPC.job

/-- The jobs held by the workers. -/
def State.inWorkers (s : State) : List Job := s.workers.filterMap WorkerPC.holds

/-- Every job whose `Process` began has returned or is running in a worker;
every job the dispatcher received has been processed, or is held by a worker,
or is held by the dispatcher. -/
structure JobsInv (s : State) : Prop where
  sta : s.started.Perm (s.finished ++ s.active)
  acc : s.accepted.Perm (s.finished ++ s.inWorkers ++ s.disp.held.toList)

/-- All the invariants together. -/
structure Inv (s : State) : Prop where
  flag : FlagInv s
  core : CoreInv s
  pool : PoolInv s
  jobs : JobsInv s

/-- Run a schedule, staying where it is if a transition is not enabled. -/
def exec (ls : List Label) (s : State) : State := (run ls s).getD s

/-- The schedule that starts a queue with one worker: `Start` runs, the worker
registers, the dispatcher reaches its `select`. -/
def startOne : List Label :=
  [.main, .main, .main, .main, .main, .worker 0, .worker 0, .dispatcher]

/-- A schedule after which the worker of a one-worker queue is running job 7
and job 8 is held by the dispatcher. -/
def busySchedule : List Label :=
  startOne ++ [.client 0, .submit 0, .dispatcher, .assign, .worker 0, .client 0, .submit 0]

/-- A schedule after which the dispatcher has checked the worker out of the
ready pool and not yet handed it the job. -/
def checkedOutSchedule : List Label :=
  startOne ++ [.client 0, .submit 0, .dispatcher]

/-- A schedule in which `Stop` is entered and three jobs are submitted
afterwards. -/
def droppedSchedule : List Label :=
  startOne ++ [.client 0, .client 1, .client 1, .client 1]

/-- A schedule after which one client has entered `Stop` and set the flag. -/
def stopEnteredSchedule : List Label :=
  startOne ++ [.client 0]

/-- A schedule on a queue without workers in which a `Submit` returns. -/
def zeroSchedule : List Label :=
  [.main, .main, .main, .main, .dispatcher, .client 0, .submit 0]

/-- A schedule in which a one-worker queue processes job 7 and is stopped. -/
def fullSchedule : List Label :=
  startOne ++ [.client 0, .submit 0, .dispatcher, .assign, .worker 0, .worker 0, .worker 0,
    .client 0, .quit 0, .stopWorker, .dispatcher, .worker 0, .dispatcher, .dispatcher, .client 0,
    .client 0]

/-- What holds of a queue built with `NewJobQueue(0)`: there are no workers,
the ready pool stays empty, no `Process` begins, and once the dispatcher has
received a job it never leaves `<-q.readyPool`. -/
structure ZeroInv (s : State) : Prop where
  workers : s.workers = []
  pool : s.readyPool = []
  started : s.started = []
  acc : s.accepted = [] ∨ ∃ j, s.accepted = [j] ∧ s.disp = .haveJob (some j)

/-- The list whose first `i` of `n` entries are `a` and whose others are `b`. -/
def fill {α : Type} (i n : Nat) (a b : α) : List α :=
  List.replicate i a ++ List.replicate (n - i) b

/-- `Start` has spawned the first `i` workers. -/
def spawning (W : Nat) (progs : List (List Op)) (i : Nat) : State :=
  { initState W progs with
    workers := fill i W .add .unspawned
    main := .startWorkers i }

/-- `Start` has returned and the first `i` workers have executed
`w.done.Add(1)`. -/
def adding (W : Nat) (progs : List (List Op)) (i : Nat) : State :=
  { initState W progs with
    workers := fill i W .register .add
    workersStopped := i
    stoppedMutex := true
    main := .returned
    disp := .add }

/-- The first `i` workers have registered in the ready pool. -/
def registering (W : Nat) (progs : List (List Op)) (i : Nat) : State :=
  { initState W progs with
    workers := fill i W .select .register
    readyPool := List.range i
    workersStopped := W
    stoppedMutex := true
    main := .returned
    disp := .add }

/-- The started, idle queue: every worker is registered and waits at its
`select`, the dispatcher waits at its `select`, no client has made a call. -/
def idleState (W : Nat) (progs : List (List Op)) : State :=
  { initState W progs with
    workers := List.replicate W .select
    readyPool := List.range W
    workersStopped := W
    dispatcherStopped := 1
    stoppedMutex := true
    main := .returned
    disp := .select }

/-- From `b`, the dispatcher has received the quit signal and told the first
`i` workers to stop. -/
def stoppingAt (b : State) (W i : Nat) : State :=
  { b with disp := .stopping i, workers := fill i W .exiting .select }

/-- From `b`, every worker has been told to stop and the first `i` have
executed `w.done.Done()`. -/
def exitingAt (b : State) (W i : Nat) : State :=
  { b with disp := .waitWorkers, workers := fill i W .exited .exiting, workersStopped := W - i }

/-- From `b`, the workers and the dispatcher have exited. -/
def shutDown (b : State) (W : Nat) : State :=
  { b with disp := .exited, workers := List.replicate W .exited, workersStopped := 0,
           dispatcherStopped := 0 }

/-- Nothing is running: `Start` has returned, the dispatcher and all workers
have exited. -/
def Quiescent (s : State) : Prop :=
  s.main = .returned ∧ s.disp = .exited ∧ ∀ pc ∈ s.workers, pc = .exited

/-- The two clients of the race: one calls `Submit(j)`, the other `Stop()`. -/
def race (j : Job) : List (List Op) := [[.submit j], [.stop]]

/-- In the race, `Submit` has read the flag as false and is about to send. -/
def raceRead (W : Nat) (j : Job) : State :=
  { idleState W (race j) with clients := [⟨.sending j, []⟩, ⟨.idle, [.stop]⟩] }

/-- In the race, `Stop` has set the flag and its quit signal has been
received; the base state of the shutdown. -/
def raceQuit (W : Nat) (j : Job) : State :=
  { idleState W (race j) with
    clients := [⟨.sending j, []⟩, ⟨.stopWait, []⟩]
    stopped := true
    stopCalled := true }

/-- In the race, `Stop` has returned. -/
def raceStopped (W : Nat) (j : Job) : State :=
  { shutDown (raceQuit W j) W with
    internalQueueClosed := true
    clients := [⟨.sending j, []⟩, ⟨.idle, []⟩]
    stopReturned := true }

/-- In the race, the send of `Submit` has hit the closed channel. -/
def racePanicked (W : Nat) (j : Job) : State :=
  { raceStopped W j with clients := [⟨.panicked, []⟩, ⟨.idle, []⟩] }

/-- On a queue used only to call `Stop`: the flag has been set and the quit
signal received; the base state of the shutdown. -/
def stopQuit (W : Nat) : State :=
  { idleState W [[.stop]] with
    clients := [⟨.stopWait, []⟩]
    stopped := true
    stopCalled := true }

/-- On a queue used only to call `Stop`: `Stop` has returned. -/
def stopDone (W : Nat) : State :=
  { shutDown (stopQuit W) W with
    internalQueueClosed := true
    clients := [⟨.idle, []⟩]
    stopReturned := true }

/-- How many steps `Start` still has to take, at most. -/
def MainPC.rank (W : Nat) : MainPC → Nat
  | .startWorkers i => (W - i) + 4
  | .goDispatch => 3
  | .newMutex => 2
  | .setStopped => 1
  | .returned => 0

/-- The potential of a worker. -/
def WorkerPC.rank : WorkerPC → Nat
  | .unspawned => 7
  | .add => 6
  | .received _ => 5
  | .processing _ => 4
  | .register => 3
  | .select => 2
  | .exiting => 1
  | .exited => 0
  | .panicked => 0

/-- The potential of the dispatcher. -/
def DispPC.rank (W : Nat) : DispPC → Nat
  | .unspawned => W + 6
  | .add => W + 5
  | .select => W + 4
  | .haveJob _ => W + 9
  | .haveWorker _ _ => W + 8
  | .stopping i => (W - i) + 3
  | .waitWorkers => 2
  | .done => 1
  | .exited => 0
  | .panicked => 0

/-- The potential of a call still to be made. -/
def Op.weight : Op → Nat
  | .submit _ => 7
  | .stop => 4

/-- The potential of a client's position. -/
def ClientPC.rank : ClientPC → Nat
  | .idle => 0
  | .sending _ => 6
  | .stopQuit => 3
  | .stopWait => 2
  | .stopClose => 1
  | .panicked => 0

/-- The potential of a client. -/
def Client.weight (cl : Client) : Nat := cl.pc.rank + (cl.prog.map Op.weight).sum

/-- A bound on the number of transitions the system can still take. -/
def State.measure (s : State) : Nat :=
  s.main.rank s.workers.length + s.disp.rank s.workers.length +
    (s.workers.map WorkerPC.rank).sum + (s.clients.map Client.weight).sum

/-- The single producer: `Submit` of the jobs `0 … N-1` one after another,
then `Stop`. -/
def producer (N : Nat) : List Op := (List.range N).map Op.submit ++ [Op.stop]

/-- What the position of the single producer says about the queue, when the
producer has consumed `n` of its calls. -/
def producerOk (N : Nat) (s : State) : ClientPC → Nat → Prop
  | .idle, n =>
    (n ≤ N ∧ s.accepted = List.range n ∧ s.stopCalled = false) ∨
      (n = N + 1 ∧ s.accepted = List.range N ∧ s.stopReturned = true)
  | .sending j, n => n = j + 1 ∧ j < N ∧ s.accepted = List.range j ∧ s.stopCalled = false
  | .stopQuit, n =>
    n = N + 1 ∧ s.accepted = List.range N ∧ s.disp.stopPhase = false ∧ s.stopReturned = false
  | .stopWait, n =>
    n = N + 1 ∧ s.accepted = List.range N ∧ s.internalQueueClosed = false ∧
      s.stopReturned = false
  | .stopClose, n =>
    n = N + 1 ∧ s.accepted = List.range N ∧ s.internalQueueClosed = false ∧
      s.stopReturned = false
  | .panicked, _ => False

/-- The invariant of the single-producer system. -/
def ProducerInv (N : Nat) (s : State) : Prop :=
  ∃ cl n, s.clients = [cl] ∧ cl.prog = (producer N).drop n ∧ producerOk N s cl.pc n

/-! ## List lemmas -/

theorem countP_set {α : Type} (p : α → Bool) (x a : α) :
    ∀ (l : List α) (i : Nat), l[i]? = some a →
      (l.set i x).countP p + (if p a then 1 else 0) = l.countP p + (if p x then 1 else 0)
  | [], i, h => by simp at h
  | b :: l, 0, h => by
    simp at h
    subst h
    simp [List.countP_cons]
    omega
  | b :: l, i + 1, h => by
    simp at h
    have := countP_set p x a l i h
    simp [List.countP_cons]
    omega

theorem sum_map_set {α : Type} (f : α → Nat) (x a : α) :
    ∀ (l : List α) (i : Nat), l[i]? = some a →
      ((l.set i x).map f).sum + f a = (l.map f).sum + f x
  | [], i, h => by simp at h
  | b :: l, 0, h => by
    simp at h
    subst h
    simp
    omega
  | b :: l, i + 1, h => by
    simp at h
    have := sum_map_set f x a l i h
    simp only [List.set_cons_succ, List.map_cons, List.sum_cons]
    omega

theorem filterMap_set_perm {α β : Type} (f : α → Option β) (x a : α) :
    ∀ (l : List α) (i : Nat), l[i]? = some a →
      ((f a).toList ++ (l.set i x).filterMap f).Perm ((f x).toList ++ l.filterMap f)
  | [], i, h => by simp at h
  | b :: l, 0, h => by
    simp at h
    subst h
    cases hb : f b <;> cases hx : f x <;> simp [List.filterMap_cons, hb, hx]
    exact List.Perm.swap _ _ _
  | b :: l, i + 1, h => by
    simp at h
    have ih := filterMap_set_perm f x a l i h
    cases hb : f b <;> simp [List.filterMap_cons, hb]
    · exact ih
    · rename_i v
      refine (List.perm_middle).trans ?_
      refine List.Perm.trans ?_ (List.perm_middle).symm
      exact List.Perm.cons v ih

theorem forall_mem_set {α : Type} {P : α → Prop} {l : List α} (i : Nat) (b : α)
    (h : ∀ a ∈ l, P a) (hb : P b) : ∀ a ∈ l.set i b, P a := by
  intro a ha
  rcases List.mem_or_eq_of_mem_set ha with h' | rfl
  · exact h a h'
  · exact hb

theorem getElem?_set_cases {α : Type} {l : List α} {i k : Nat} {x a : α}
    (h : (l.set i x)[k]? = some a) : (k = i ∧ a = x) ∨ (k ≠ i ∧ l[k]? = some a) := by
  by_cases hik : i = k
  · subst hik
    left
    rw [List.getElem?_set_self'] at h
    cases hl : l[i]? <;> simp [hl] at h
    exact ⟨rfl, h.symm⟩
  · right
    rw [List.getElem?_set_ne hik] at h
    exact ⟨fun e => hik e.symm, h⟩

/-! ## The transitions as a relation -/

@[simp] theorem getStopped_eq_some (q : JobQueue) (b : Bool) :
    q.getStopped = some b ↔ q.stoppedMutex = true ∧ q.stopped = b := by
  unfold JobQueue.getStopped; split <;> simp_all

@[simp] theorem getStopped_eq_none (q : JobQueue) :
    q.getStopped = none ↔ q.stoppedMutex = false := by
  unfold JobQueue.getStopped; split <;> simp_all

@[simp] theorem setStopped_eq_some (q q' : JobQueue) (b : Bool) :
    q.setStopped b = some q' ↔ q.stoppedMutex = true ∧ q' = { q with stopped := b } := by
  unfold JobQueue.setStopped
  split
  · constructor
    · intro h; exact ⟨by assumption, (Option.some.inj h).symm⟩
    · rintro ⟨_, rfl⟩; rfl
  · simp_all

@[simp] theorem setStopped_eq_none (q : JobQueue) (b : Bool) :
    q.setStopped b = none ↔ q.stoppedMutex = false := by
  unfold JobQueue.setStopped; split <;> simp_all

set_option maxHeartbeats 4000000 in
theorem Step.of_step {s s' : State} {l : Label} (hs : step l s = some s') : Step s s' := by
  cases l <;>
    simp only [step, startStep, dispatchStep, workerStep, clientStep, submitRendezvous,
      quitRendezvous, assignRendezvous, stopWorkerRendezvous] at hs <;>
    repeat' split at hs
  all_goals first | (simp at hs; done) | skip
  all_goals simp only [Option.some.injEq] at hs
  all_goals subst hs
  all_goals first
    | (apply Step.sendClosed <;> assumption)
    | (apply Step.closeClosed <;> assumption)
    | (apply Step.beginNil <;> assumption)
    | (apply Step.workerDonePanic <;> assumption)
    | (constructor <;> assumption)
    | skip
  all_goals rename_i hx
  all_goals simp at hx
  · obtain ⟨hx, rfl⟩ := hx
    exact Step.setStopped ‹_› hx
  · exact Step.submitNil _ _ _ _ ‹_› ‹_› ‹_› ‹_› hx
  · exact Step.submitDropped _ _ _ _ ‹_› ‹_› ‹_› ‹_› hx.1 hx.2
  · exact Step.submitEnter _ _ _ _ ‹_› ‹_› ‹_› ‹_› hx.1 hx.2
  · exact Step.stopNil _ _ _ ‹_› ‹_› ‹_› ‹_› hx
  · obtain ⟨hx, rfl⟩ := hx
    exact Step.stopEnter _ _ _ ‹_› ‹_› ‹_› ‹_› hx

/-! ## Reachability and the flag invariant -/

theorem reachable_of_run {s0 : State} : ∀ (ls : List Label) (s s' : State),
    Reachable s0 s → run ls s = some s' → Reachable s0 s'
  | [], s, s', h, hr => by
    simp [run] at hr
    exact hr ▸ h
  | l :: ls, s, s', h, hr => by
    simp only [run] at hr
    cases hl : Kyoo.step l s with
    | none => simp [hl] at hr
    | some t =>
      rw [hl] at hr
      exact reachable_of_run ls t s' (Reachable.step l h hl) hr

theorem Reachable.trans {s0 s1 s2 : State} (h1 : Reachable s0 s1) (h2 : Reachable s1 s2) :
    Reachable s0 s2 := by
  induction h2 with
  | init => exact h1
  | step l _ hs ih => exact Reachable.step l ih hs

theorem Reachable.invariant {s0 : State} {P : State → Prop} (h0 : P s0)
    (hstep : ∀ s s', P s → Step s s' → P s') : ∀ {s : State}, Reachable s0 s → P s := by
  intro s h
  induction h with
  | init => exact h0
  | step l _ hs ih => exact hstep _ _ ih (Step.of_step hs)

theorem flagInv_init (W : Nat) (progs : List (List Op)) : FlagInv (initState W progs) := by
  constructor <;> simp [initState, NewJobQueue, ClientPC.inStop, DispPC.stopPhase]

theorem flagInv_mutex {s s' : State} (h : FlagInv s) (hs : Step s s') :
    s'.main = .setStopped ∨ s'.main = .returned → s'.stoppedMutex = true := by
  have h1 := h.mutex
  cases hs <;> dsimp only <;> first | assumption | (simp_all; done)

theorem flagInv_notCalled {s s' : State} (h : FlagInv s) (hs : Step s s') :
    s'.main = .returned → s'.stopCalled = false → s'.stopped = false := by
  have h1 := h.notCalled
  cases hs <;> dsimp only <;> first | assumption | (simp_all; done)

theorem flagInv_called {s s' : State} (h : FlagInv s) (hs : Step s s') :
    s'.stopCalled = true → s'.stopped = true ∧ s'.main = .returned := by
  have h1 := h.called
  have h2 := h.mutex
  cases hs <;> dsimp only <;> first | assumption | (simp_all; done)

theorem flagInv_inStop {s s' : State} (h : FlagInv s) (hs : Step s s') :
    ∀ cl ∈ s'.clients, cl.pc.inStop = true → s'.stopCalled = true := by
  have h1 := h.inStop
  have key : ∀ (c : Nat) (cl : Client), s.clients[c]? = some cl → cl.pc.inStop = true →
      s.stopCalled = true := fun c cl hc hp => h1 cl (List.getElem?_mem hc) hp
  cases hs <;> dsimp only
  case stopWaitDone c cl hm hc hpc hz =>
    exact forall_mem_set _ _ h1 (fun _ => key c cl hc (by rw [hpc]; rfl))
  case quit c rest hc hd => exact forall_mem_set _ _ h1 (fun _ => key c _ hc rfl)
  all_goals first
    | assumption
    | (intro cl hcl _; rfl)
    | (refine forall_mem_set _ _ h1 ?_; simp [ClientPC.inStop]; done)

theorem flagInv_ret {s s' : State} (h : FlagInv s) (hs : Step s s') :
    s'.stopReturned = true → s'.stopCalled = true := by
  have h1 := h.ret
  cases hs <;> dsimp only
  case close c cl hm hc hpc hq =>
    exact fun _ => h.inStop cl (List.getElem?_mem hc) (by rw [hpc]; rfl)
  all_goals first
    | assumption
    | (intro _; rfl)

theorem flagInv_flagSet {s s' : State} (h : FlagInv s) (hs : Step s s') :
    s'.stopped = true → s'.stopCalled = true := by
  have h1 := h.flagSet
  cases hs <;> dsimp only <;> first | assumption | (simp_all; done)

theorem flagInv_phase {s s' : State} (h : FlagInv s) (hs : Step s s') :
    s'.disp.stopPhase = true → s'.stopCalled = true := by
  have h1 := h.phase
  cases hs <;> dsimp only
  case quit c rest hc hd => exact fun _ => h.inStop _ (List.getElem?_mem hc) rfl
  all_goals first
    | assumption
    | (intro _; rfl)
    | (simp_all [DispPC.stopPhase]; done)

theorem flagInv_step {s s' : State} (h : FlagInv s) (hs : Step s s') : FlagInv s' :=
  ⟨flagInv_mutex h hs, flagInv_notCalled h hs, flagInv_called h hs, flagInv_ret h hs,
    flagInv_inStop h hs, flagInv_flagSet h hs, flagInv_phase h hs⟩

/-! ## The start-up, shutdown and wait-group invariant -/

theorem forall_getElem?_set {α : Type} {P : Nat → α → Prop} {l : List α} {i : Nat} {x : α}
    (h : ∀ k a, l[k]? = some a → k ≠ i → P k a) (hx : P i x) :
    ∀ k a, (l.set i x)[k]? = some a → P k a := by
  intro k a hk
  rcases getElem?_set_cases hk with ⟨rfl, rfl⟩ | ⟨hne, hk'⟩
  · exact hx
  · exact h k a hk' hne

theorem countP_pos_of_getElem? {α : Type} {p : α → Bool} {l : List α} {k : Nat} {a : α}
    (h : l[k]? = some a) (hp : p a = true) : 0 < l.countP p :=
  List.countP_pos_iff.mpr ⟨a, List.getElem?_mem h, hp⟩

theorem countP_set_eq {α : Type} (p : α → Bool) {l : List α} {i : Nat} {a : α} (x : α)
    (h : l[i]? = some a) :
    (l.set i x).countP p = l.countP p + (if p x then 1 else 0) - (if p a then 1 else 0) := by
  have := countP_set p x a l i h
  omega

theorem spawnOk_of_ne {m : MainPC} {k : Nat} {pc pc' : WorkerPC} (h : spawnOk m k pc)
    (h1 : pc ≠ .unspawned) (h2 : pc' ≠ .unspawned) : spawnOk m k pc' := by
  cases m <;> simp_all [spawnOk]

theorem goneOk_of_not_gone {d : DispPC} {k : Nat} {pc pc' : WorkerPC} (h : goneOk d k pc)
    (h1 : pc.gone = false) (h2 : pc'.gone = false) : goneOk d k pc' := by
  cases d <;> simp_all [goneOk] <;> simp_all [WorkerPC.gone]

theorem goneOk_exited {d : DispPC} {k : Nat} (h : goneOk d k .exiting) : goneOk d k .exited := by
  cases d <;> simp_all [goneOk, WorkerPC.gone]

theorem coreInv_len {s s' : State} (h : CoreInv s) (hs : Step s s') :
    s'.workers.length = s'.readyPoolCap := by
  have := h.len
  cases hs <;> dsimp only <;> first | assumption | (rw [List.length_set]; assumption)

theorem coreInv_dm {s s' : State} (h : CoreInv s) (hs : Step s s') : dispOk s'.main s'.disp := by
  have := h.dm
  cases hs <;> dsimp only <;> first | assumption | (simp_all [dispOk]; done)

theorem coreInv_dwg {s s' : State} (h : CoreInv s) (hs : Step s s') :
    s'.dispatcherStopped = if s'.disp.counted then 1 else 0 := by
  have h1 := h.dwg
  have h2 := h.dm
  cases hs <;> dsimp only <;> first | assumption | (simp_all [DispPC.counted, dispOk]; done)

theorem coreInv_spawn {s s' : State} (h : CoreInv s) (hs : Step s s') :
    ∀ k pc, s'.workers[k]? = some pc → spawnOk s'.main k pc := by
  have h1 := h.spawn
  cases hs <;> dsimp only
  case spawn i hm hi =>
    refine forall_getElem?_set (fun k a hk hne => ?_) (by simp [spawnOk])
    have := h1 k a hk
    rw [hm] at this
    simp only [spawnOk] at this ⊢
    rw [this]
    omega
  case spawnDone i hm hi =>
    intro k pc hk
    have := h1 k pc hk
    have hlt : k < s.workers.length := (List.getElem?_eq_some_iff.mp hk).1
    rw [hm] at this
    simp only [spawnOk] at this ⊢
    rw [ne_eq, this]
    omega
  all_goals first
    | assumption
    | (intro k pc hk; have := h1 k pc hk; simp_all [spawnOk]; done)
    | exact forall_getElem?_set (fun k a hk _ => h1 k a hk)
        (spawnOk_of_ne (h1 _ _ ‹_›) (by simp) (by simp))

theorem coreInv_wg {s s' : State} (h : CoreInv s) (hs : Step s s') :
    s'.workersStopped = s'.workers.countP WorkerPC.inWaitGroup := by
  have h1 := h.wg
  cases hs <;> dsimp only
  case spawn i hm hi =>
    obtain ⟨pc, hpc⟩ : ∃ pc, s.workers[i]? = some pc := ⟨_, List.getElem?_eq_getElem hi⟩
    have h2 := h.spawn i pc hpc
    rw [hm] at h2
    simp only [spawnOk, le_refl, iff_true] at h2
    subst h2
    have := countP_set WorkerPC.inWaitGroup .add _ _ _ hpc
    simp [WorkerPC.inWaitGroup] at this
    omega
  case workerDonePanic i hw hz =>
    have := countP_pos_of_getElem? (p := WorkerPC.inWaitGroup) hw rfl
    omega
  case beginNil i hw => exact absurd rfl (h.rs _ (List.getElem?_mem hw))
  all_goals first
    | assumption
    | (rw [countP_set_eq _ _ ‹_›]
       have := countP_pos_of_getElem? (p := WorkerPC.inWaitGroup) ‹_› rfl
       simp [WorkerPC.inWaitGroup]
       omega)
    | (rw [countP_set_eq _ _ ‹_›]
       simp [WorkerPC.inWaitGroup]
       omega)

theorem coreInv_gone {s s' : State} (h : CoreInv s) (hs : Step s s') :
    ∀ k pc, s'.workers[k]? = some pc → goneOk s'.disp k pc := by
  have h1 := h.gone
  have h2 := h.dm
  cases hs <;> dsimp only
  case spawn i hm hi =>
    rw [hm] at h2
    simp only [dispOk] at h2
    rw [h2] at h1 ⊢
    exact forall_getElem?_set (fun k a hk _ => h1 k a hk) (by simp [goneOk, WorkerPC.gone])
  case stopLoopDone i hd hi =>
    intro k pc hk
    have := h1 k pc hk
    have hlt : k < s.workers.length := (List.getElem?_eq_some_iff.mp hk).1
    rw [hd] at this
    simp only [goneOk] at this ⊢
    rw [this]
    omega
  case waitWorkers hd hz =>
    intro k pc hk
    have := h1 k pc hk
    rw [hd] at this
    simp only [goneOk] at this ⊢
    cases pc <;> simp [WorkerPC.gone] at this ⊢
    have := countP_pos_of_getElem? (p := WorkerPC.inWaitGroup) hk rfl
    have := h.wg
    omega
  case workerDonePanic i hw hz =>
    have := countP_pos_of_getElem? (p := WorkerPC.inWaitGroup) hw rfl
    have := h.wg
    omega
  case workerDone i hw hz =>
    exact forall_getElem?_set (fun k a hk _ => h1 k a hk) (goneOk_exited (h1 _ _ hw))
  case quit c rest hc hd =>
    intro k pc hk
    have := h1 k pc hk
    rw [hd] at this
    simpa [goneOk] using this
  case stopWorker i hd hw =>
    rw [hd] at h1
    refine forall_getElem?_set (fun k a hk hne => ?_) (by simp [goneOk, WorkerPC.gone])
    have := h1 k a hk
    simp only [goneOk] at this ⊢
    rw [this]
    omega
  all_goals first
    | assumption
    | (intro k pc hk; have := h1 k pc hk; simp_all [goneOk]; done)
    | (intro k pc hk
       rcases getElem?_set_cases hk with ⟨rfl, rfl⟩ | ⟨_, hk'⟩
       · have hw := h1 _ _ ‹s.workers[_]? = some _›
         exact goneOk_of_not_gone hw rfl rfl
       · exact h1 _ _ hk')
    | (rename_i hd _
       rw [hd] at h1
       exact forall_getElem?_set (fun k a hk _ => h1 k a hk) rfl)
    | (intro k pc hk; have := h1 k pc hk; simp_all [goneOk, dispOk]; done)

theorem coreInv_closed {s s' : State} (h : CoreInv s) (hs : Step s s') :
    s'.internalQueueClosed = true → s'.disp = .exited := by
  have h1 := h.closed
  have h2 := h.cc
  have h3 := h.dm
  cases hs <;> dsimp only
  case close c cl hm hc hpc hq => exact fun _ => h2 cl (List.getElem?_mem hc) hpc
  all_goals first
    | assumption
    | (intro hq; have := h1 hq; simp_all [dispOk]; done)

theorem coreInv_cw {s s' : State} (h : CoreInv s) (hs : Step s s') :
    ∀ cl ∈ s'.clients, cl.pc = .stopWait ∨ cl.pc = .stopClose → s'.disp.stopPhase = true := by
  have h1 := h.cw
  have h2 := h.dwg
  have h3 := h.dm
  cases hs <;> dsimp only
  case stopWaitDone c cl hm hc hpc hz =>
    exact forall_mem_set _ _ h1 (fun _ => h1 cl (List.getElem?_mem hc) (Or.inl hpc))
  all_goals first
    | assumption
    | (refine forall_mem_set _ _ h1 ?_; simp; done)
    | (intro cl hcl hpc; have := h1 cl hcl hpc; simp_all [DispPC.stopPhase, DispPC.counted, dispOk]; done)
    | (refine forall_mem_set _ _ ?_ ?_
       · intro cl hcl hpc; have := h1 cl hcl hpc; simp_all [DispPC.stopPhase]
       · simp [DispPC.stopPhase])

theorem coreInv_cc {s s' : State} (h : CoreInv s) (hs : Step s s') :
    ∀ cl ∈ s'.clients, cl.pc = .stopClose → s'.disp = .exited := by
  have h1 := h.cc
  have h2 := h.dwg
  have h3 := h.dm
  cases hs <;> dsimp only
  case stopWaitDone c cl hm hc hpc hz =>
    refine forall_mem_set _ _ h1 (fun _ => ?_)
    have := h.cw cl (List.getElem?_mem hc) (Or.inl hpc)
    rw [hz] at h2
    revert this h2
    cases s.disp <;> simp [DispPC.stopPhase, DispPC.counted]
  all_goals first
    | assumption
    | (refine forall_mem_set _ _ h1 ?_; simp; done)
    | (intro cl hcl hpc; have := h1 cl hcl hpc; simp_all [DispPC.counted, dispOk]; done)
    | (refine forall_mem_set _ _ ?_ ?_
       · intro cl hcl hpc; have := h1 cl hcl hpc; simp_all
       · simp)

theorem coreInv_sr {s s' : State} (h : CoreInv s) (hs : Step s s') :
    s'.stopReturned = true → s'.internalQueueClosed = true := by
  have h1 := h.sr
  cases hs <;> dsimp only <;> first | assumption | (intro; rfl)

theorem coreInv_nowp {s s' : State} (h : CoreInv s) (hs : Step s s') :
    ∀ pc ∈ s'.workers, pc ≠ .panicked := by
  have h1 := h.nowp
  cases hs <;> dsimp only
  case workerDonePanic i hw hz =>
    have := countP_pos_of_getElem? (p := WorkerPC.inWaitGroup) hw rfl
    have := h.wg
    omega
  case beginNil i hw => exact absurd rfl (h.rs _ (List.getElem?_mem hw))
  all_goals first
    | assumption
    | (refine forall_mem_set _ _ h1 ?_; simp; done)

theorem coreInv_rs {s s' : State} (h : CoreInv s) (hs : Step s s') :
    ∀ pc ∈ s'.workers, pc ≠ .received none := by
  have h1 := h.rs
  cases hs <;> dsimp only
  case assign j w hd hw =>
    refine forall_mem_set _ _ h1 ?_
    rintro he
    cases he
    exact h.js.2 w hd
  all_goals first
    | assumption
    | (refine forall_mem_set _ _ h1 ?_; simp; done)

theorem coreInv_js {s s' : State} (h : CoreInv s) (hs : Step s s') :
    s'.disp ≠ .haveJob none ∧ ∀ w, s'.disp ≠ .haveWorker none w := by
  have h1 := h.js
  have h2 := h.closed
  cases hs <;> dsimp only <;> first | assumption | (simp_all; done)

theorem coreInv_nodp {s s' : State} (h : CoreInv s) (hs : Step s s') : s'.disp ≠ .panicked := by
  have h1 := h.nodp
  have h2 := h.dwg
  cases hs <;> dsimp only <;> first | assumption | (simp_all [DispPC.counted]; done)

theorem coreInv_step {s s' : State} (h : CoreInv s) (hs : Step s s') : CoreInv s' :=
  ⟨coreInv_len h hs, coreInv_spawn h hs, coreInv_dm h hs, coreInv_wg h hs, coreInv_dwg h hs,
    coreInv_gone h hs, coreInv_closed h hs, coreInv_cw h hs, coreInv_cc h hs, coreInv_sr h hs,
    coreInv_nowp h hs, coreInv_js h hs, coreInv_nodp h hs, coreInv_rs h hs⟩

theorem coreInv_init (W : Nat) (progs : List (List Op)) : CoreInv (initState W progs) where
  len := by simp [initState, NewJobQueue]
  spawn := by
    intro k pc hk
    have := List.eq_of_mem_replicate (List.getElem?_mem hk)
    subst this
    simp [initState, spawnOk]
  dm := by simp [initState, dispOk]
  wg := by
    simp only [initState, NewJobQueue]
    exact (List.countP_eq_zero.mpr fun a ha => by
      rw [List.eq_of_mem_replicate ha]; simp [WorkerPC.inWaitGroup]).symm
  dwg := by simp [initState, NewJobQueue, DispPC.counted]
  gone := by
    intro k pc hk
    have := List.eq_of_mem_replicate (List.getElem?_mem hk)
    subst this
    simp [initState, goneOk, WorkerPC.gone]
  closed := by simp [initState, NewJobQueue]
  cw := by simp [initState]
  cc := by simp [initState]
  sr := by simp [initState]
  nowp := by
    intro pc hpc
    rw [List.eq_of_mem_replicate hpc]
    simp
  js := by simp [initState]
  nodp := by simp [initState]
  rs := by
    intro pc hpc
    rw [List.eq_of_mem_replicate hpc]
    simp

/-! ## The ready-pool invariant -/

theorem poolInv_nodup {s s' : State} (h : PoolInv s) (hs : Step s s') : s'.readyPool.Nodup := by
  have h1 := h.nodup
  cases hs <;> dsimp only
  case checkout j w rest hd hp =>
    rw [hp] at h1
    exact (List.nodup_cons.mp h1).2
  case register i hw hp =>
    refine List.Nodup.append h1 (List.nodup_singleton i) ?_
    simp only [List.disjoint_singleton]
    intro hi
    obtain ⟨pc, hpc, hor⟩ := h.pmem i hi
    rw [hw] at hpc
    obtain rfl := Option.some.inj hpc
    simp at hor
  all_goals assumption

theorem pmem_set {s : State} (h : PoolInv s) {i : Nat} {a x : WorkerPC}
    (hw : s.workers[i]? = some a)
    (hx : (a = .select ∨ a = .exiting ∨ a = .exited) → (x = .select ∨ x = .exiting ∨ x = .exited)) :
    ∀ w ∈ s.readyPool, ∃ pc, (s.workers.set i x)[w]? = some pc ∧
      (pc = .select ∨ pc = .exiting ∨ pc = .exited) := by
  intro w hmem
  obtain ⟨pc, hpc, hor⟩ := h.pmem w hmem
  by_cases hwi : i = w
  · subst hwi
    rw [hw] at hpc
    obtain rfl := Option.some.inj hpc
    refine ⟨x, ?_, hx hor⟩
    rw [List.getElem?_set_self (List.getElem?_eq_some_iff.mp hw).1]
  · exact ⟨pc, by rw [List.getElem?_set_ne hwi]; exact hpc, hor⟩

theorem poolInv_pmem {s s' : State} (h : PoolInv s) (hc : CoreInv s) (hs : Step s s') :
    ∀ w ∈ s'.readyPool, ∃ pc, s'.workers[w]? = some pc ∧
      (pc = .select ∨ pc = .exiting ∨ pc = .exited) := by
  have h1 := h.pmem
  cases hs <;> dsimp only
  case spawn i hm hi =>
    obtain ⟨pc, hpc⟩ : ∃ pc, s.workers[i]? = some pc := ⟨_, List.getElem?_eq_getElem hi⟩
    have h2 := hc.spawn i pc hpc
    rw [hm] at h2
    simp only [spawnOk, le_refl, iff_true] at h2
    subst h2
    exact pmem_set h hpc (by simp)
  case checkout j w rest hd hp =>
    intro k hk
    exact h1 k (by rw [hp]; exact List.mem_cons_of_mem _ hk)
  case register i hw hp =>
    intro k hk
    rcases List.mem_append.mp hk with hk | hk
    · exact pmem_set h hw (by simp) k hk
    · obtain rfl := List.mem_singleton.mp hk
      exact ⟨.select, by rw [List.getElem?_set_self (List.getElem?_eq_some_iff.mp hw).1], Or.inl rfl⟩
  case workerDonePanic i hw hz =>
    have := countP_pos_of_getElem? (p := WorkerPC.inWaitGroup) hw rfl
    have := hc.wg
    omega
  case assign j w hd hw =>
    intro k hk
    obtain ⟨pc, hpc, hor⟩ := h1 k hk
    have hne : w ≠ k := fun e => (h.hw _ _ hd).2 (e ▸ hk)
    exact ⟨pc, by rw [List.getElem?_set_ne hne]; exact hpc, hor⟩
  all_goals first
    | assumption
    | exact pmem_set h ‹_› (by simp)

theorem sel_of {s : State} (h : PoolInv s) (d' : DispPC)
    (hd : ∀ j w, s.disp ≠ .haveWorker j w) :
    ∀ w : Nat, s.workers[w]? = some .select → w ∈ s.readyPool ∨ ∃ j, d' = .haveWorker j w :=
  fun w hw => (h.sel w hw).elim Or.inl (fun ⟨j, hj⟩ => absurd hj (hd j w))

theorem sel_set {s : State} (h : PoolInv s) (i : Nat) {x : WorkerPC} (hx : x ≠ .select) :
    ∀ w : Nat, (s.workers.set i x)[w]? = some .select →
      w ∈ s.readyPool ∨ ∃ j, s.disp = .haveWorker j w := by
  intro k hk
  rcases getElem?_set_cases hk with ⟨_, hh⟩ | ⟨hne, hk'⟩
  · exact absurd hh.symm hx
  · exact h.sel k hk'

theorem poolInv_sel {s s' : State} (h : PoolInv s) (hc : CoreInv s) (hs : Step s s') :
    ∀ w : Nat, s'.workers[w]? = some .select →
      w ∈ s'.readyPool ∨ ∃ j, s'.disp = .haveWorker j w := by
  have h1 := h.sel
  cases hs <;> dsimp only
  case goDispatch hm =>
    have := hc.dm
    rw [hm] at this
    exact sel_of h _ (by rw [this]; simp)
  case dispAdd hd => exact sel_of h _ (by rw [hd]; simp)
  case recvClosed hd hq => exact sel_of h _ (by rw [hd]; simp)
  case stopLoopDone i hd hi => exact sel_of h _ (by rw [hd]; simp)
  case waitWorkers hd hz => exact sel_of h _ (by rw [hd]; simp)
  case dispDonePanic hd hz => exact sel_of h _ (by rw [hd]; simp)
  case dispDone hd hz => exact sel_of h _ (by rw [hd]; simp)
  case submit c j rest hc hd hq => exact sel_of h _ (by rw [hd]; simp)
  case quit c rest hc hd => exact sel_of h _ (by rw [hd]; simp)
  case spawn i hm hi => exact sel_set h i (by simp)
  case workerAdd i hw => exact sel_set h i (by simp)
  case finish i j hw => exact sel_set h i (by simp)
  case workerDonePanic i hw hz => exact sel_set h i (by simp)
  case workerDone i hw hz => exact sel_set h i (by simp)
  case checkout j w rest hd hp =>
    intro k hk
    rcases h1 k hk with hm | ⟨j', hj⟩
    · rw [hp] at hm
      rcases List.mem_cons.mp hm with rfl | hm
      · exact Or.inr ⟨j, rfl⟩
      · exact Or.inl hm
    · rw [hd] at hj; cases hj
  case register i hw hp =>
    intro k hk
    rcases getElem?_set_cases hk with ⟨rfl, _⟩ | ⟨_, hk'⟩
    · exact Or.inl (List.mem_append_right _ (List.mem_singleton_self _))
    · rcases h1 k hk' with hm | hj
      · exact Or.inl (List.mem_append_left _ hm)
      · exact Or.inr hj
  case assign j w hd hw =>
    intro k hk
    rcases getElem?_set_cases hk with ⟨_, hh⟩ | ⟨hne, hk'⟩
    · cases hh
    · rcases h1 k hk' with hm | ⟨j', hj⟩
      · exact Or.inl hm
      · rw [hd] at hj; cases hj; exact absurd rfl hne
  case begin i j hw => exact sel_set h i (by simp)
  case beginNil i hw => exact sel_set h i (by simp)
  case stopWorker i hd hw =>
    intro k hk
    rcases sel_set h i (by simp) k hk with hm | ⟨j', hj⟩
    · exact Or.inl hm
    · rw [hd] at hj; cases hj
  all_goals assumption

theorem hw_set {s : State} (h : PoolInv s) {i : Nat} {a : WorkerPC} (x : WorkerPC)
    (hw : s.workers[i]? = some a) (ha : a ≠ .select) :
    ∀ j w, s.disp = .haveWorker j w →
      (s.workers.set i x)[w]? = some .select ∧ w ∉ s.readyPool := by
  intro j w hd
  obtain ⟨h1, h2⟩ := h.hw j w hd
  have hne : i ≠ w := by
    rintro rfl
    rw [hw] at h1
    exact ha (Option.some.inj h1)
  exact ⟨by rw [List.getElem?_set_ne hne]; exact h1, h2⟩

theorem poolInv_hw {s s' : State} (h : PoolInv s) (hc : CoreInv s) (hs : Step s s') :
    ∀ j w, s'.disp = .haveWorker j w → s'.workers[w]? = some .select ∧ w ∉ s'.readyPool := by
  have h1 := h.hw
  cases hs <;> dsimp only
  case spawn i hm hi =>
    have := hc.dm
    rw [hm] at this
    simp only [dispOk] at this
    intro j w hd
    rw [this] at hd
    cases hd
  case workerAdd i hw => exact hw_set h _ hw (by simp)
  case begin i j hw => exact hw_set h _ hw (by simp)
  case beginNil i hw => exact hw_set h _ hw (by simp)
  case finish i j hw => exact hw_set h _ hw (by simp)
  case workerDonePanic i hw hz => exact hw_set h _ hw (by simp)
  case workerDone i hw hz => exact hw_set h _ hw (by simp)
  case register i hw hp =>
    intro j w hd
    obtain ⟨h2, h3⟩ := hw_set h .select hw (by simp) j w hd
    refine ⟨h2, ?_⟩
    intro hmem
    rcases List.mem_append.mp hmem with hmem | hmem
    · exact h3 hmem
    · obtain rfl := List.mem_singleton.mp hmem
      have := (h1 j w hd).1
      rw [hw] at this
      cases this
  case checkout j w rest hd hp =>
    intro j' w' he
    cases he
    have hmem : w ∈ s.readyPool := by rw [hp]; exact List.mem_cons_self _ _
    obtain ⟨pc, hpc, hor⟩ := h.pmem w hmem
    have hg := hc.gone w pc hpc
    rw [hd] at hg
    simp only [goneOk] at hg
    have hnd := h.nodup
    rw [hp] at hnd
    refine ⟨?_, (List.nodup_cons.mp hnd).1⟩
    rcases hor with rfl | rfl | rfl
    · exact hpc
    · simp [WorkerPC.gone] at hg
    · simp [WorkerPC.gone] at hg
  all_goals first
    | assumption
    | (intro j w hd; cases hd)

theorem poolInv_step {s s' : State} (h : PoolInv s) (hc : CoreInv s) (hs : Step s s') :
    PoolInv s' :=
  ⟨poolInv_nodup h hs, poolInv_pmem h hc hs, poolInv_sel h hc hs, poolInv_hw h hc hs⟩

theorem poolInv_init (W : Nat) (progs : List (List Op)) : PoolInv (initState W progs) where
  nodup := by simp [initState, NewJobQueue]
  pmem := by simp [initState, NewJobQueue]
  sel := by
    intro w hw
    have := List.eq_of_mem_replicate (List.getElem?_mem hw)
    cases this
  hw := by simp [initState]

/-! ## The job-accounting invariant -/

theorem filterMap_set_count {f : WorkerPC → Option Job} {l : List WorkerPC} {i : Nat}
    {a : WorkerPC} (x : WorkerPC) (hw : l[i]? = some a) (j : Job) :
    (f a).toList.count j + ((l.set i x).filterMap f).count j =
      (f x).toList.count j + (l.filterMap f).count j := by
  have := (filterMap_set_perm f x a l i hw).count_eq j
  simpa [List.count_append] using this

theorem unspawned_of_spawn {s : State} (hc : CoreInv s) {i : Nat}
    (hm : s.main = .startWorkers i) (hi : i < s.workers.length) :
    s.workers[i]? = some .unspawned := by
  obtain ⟨pc, hpc⟩ : ∃ pc, s.workers[i]? = some pc := ⟨_, List.getElem?_eq_getElem hi⟩
  have h2 := hc.spawn i pc hpc
  rw [hm] at h2
  simp only [spawnOk, le_refl, iff_true] at h2
  rw [hpc, h2]

theorem jobsInv_acc {s s' : State} (h : JobsInv s) (hc : CoreInv s) (hs : Step s s') :
    s'.accepted.Perm (s'.finished ++ s'.inWorkers ++ s'.disp.held.toList) := by
  have h1 := h.acc
  have h2 := hc.dm
  refine List.perm_iff_count.mpr (fun a => ?_)
  have e1 := h1.count_eq a
  simp only [State.inWorkers, List.count_append] at e1 ⊢
  cases hs <;> dsimp only
  case spawn i hm hi =>
    have e2 := filterMap_set_count (f := WorkerPC.holds) .add (unspawned_of_spawn hc hm hi) a
    simp only [WorkerPC.holds, Option.toList, List.count_nil] at e2
    omega
  case goDispatch hm =>
    rw [hm] at h2
    simp only [dispOk] at h2
    rw [h2] at e1
    simpa [DispPC.held] using e1
  case dispAdd hd => rw [hd] at e1; simpa [DispPC.held] using e1
  case recvClosed hd hq => rw [hd] at e1; simpa [DispPC.held] using e1
  case checkout j w rest hd hp => rw [hd] at e1; simpa [DispPC.held] using e1
  case stopLoopDone i hd hi => rw [hd] at e1; simpa [DispPC.held] using e1
  case waitWorkers hd hz => rw [hd] at e1; simpa [DispPC.held] using e1
  case dispDonePanic hd hz => rw [hd] at e1; simpa [DispPC.held] using e1
  case dispDone hd hz => rw [hd] at e1; simpa [DispPC.held] using e1
  case quit c rest hcl hd => rw [hd] at e1; simpa [DispPC.held] using e1
  case workerAdd i hw =>
    have e2 := filterMap_set_count (f := WorkerPC.holds) .register hw a
    simp only [WorkerPC.holds, Option.toList, List.count_nil] at e2
    omega
  case register i hw hp =>
    have e2 := filterMap_set_count (f := WorkerPC.holds) .select hw a
    simp only [WorkerPC.holds, Option.toList, List.count_nil] at e2
    omega
  case begin i j hw =>
    have e2 := filterMap_set_count (f := WorkerPC.holds) (.processing j) hw a
    simp only [WorkerPC.holds, Option.toList] at e2
    omega
  case beginNil i hw =>
    have e2 := filterMap_set_count (f := WorkerPC.holds) .panicked hw a
    simp only [WorkerPC.holds, Option.toList, List.count_nil] at e2
    omega
  case finish i j hw =>
    have e2 := filterMap_set_count (f := WorkerPC.holds) .register hw a
    simp only [WorkerPC.holds, Option.toList, List.count_nil] at e2
    simp only [List.count_append]
    omega
  case workerDonePanic i hw hz =>
    have e2 := filterMap_set_count (f := WorkerPC.holds) .panicked hw a
    simp only [WorkerPC.holds, Option.toList, List.count_nil] at e2
    omega
  case workerDone i hw hz =>
    have e2 := filterMap_set_count (f := WorkerPC.holds) .exited hw a
    simp only [WorkerPC.holds, Option.toList, List.count_nil] at e2
    omega
  case submit c j rest hcl hd hq =>
    rw [hd] at e1
    simp only [DispPC.held, Option.toList, List.count_nil, List.count_append] at e1 ⊢
    omega
  case assign j w hd hw =>
    have e2 := filterMap_set_count (f := WorkerPC.holds) (.received j) hw a
    rw [hd] at e1
    simp only [WorkerPC.holds, DispPC.held, Option.toList, List.count_nil] at e1 e2 ⊢
    omega
  case stopWorker i hd hw =>
    have e2 := filterMap_set_count (f := WorkerPC.holds) .exiting hw a
    rw [hd] at e1
    simp only [WorkerPC.holds, DispPC.held, Option.toList, List.count_nil] at e1 e2 ⊢
    omega
  all_goals exact e1

theorem jobsInv_sta {s s' : State} (h : JobsInv s) (hc : CoreInv s) (hs : Step s s') :
    s'.started.Perm (s'.finished ++ s'.active) := by
  have h1 := h.sta
  refine List.perm_iff_count.mpr (fun a => ?_)
  have e1 := h1.count_eq a
  simp only [State.active, List.count_append] at e1 ⊢
  cases hs <;> dsimp only
  case spawn i hm hi =>
    have e2 := filterMap_set_count (f := WorkerPC.job) .add (unspawned_of_spawn hc hm hi) a
    simp only [WorkerPC.job, Option.toList, List.count_nil] at e2
    omega
  case workerAdd i hw =>
    have e2 := filterMap_set_count (f := WorkerPC.job) .register hw a
    simp only [WorkerPC.job, Option.toList, List.count_nil] at e2
    omega
  case register i hw hp =>
    have e2 := filterMap_set_count (f := WorkerPC.job) .select hw a
    simp only [WorkerPC.job, Option.toList, List.count_nil] at e2
    omega
  case begin i j hw =>
    have e2 := filterMap_set_count (f := WorkerPC.job) (.processing j) hw a
    simp only [WorkerPC.job, Option.toList, List.count_nil] at e2
    simp only [List.count_append]
    omega
  case beginNil i hw =>
    have e2 := filterMap_set_count (f := WorkerPC.job) .panicked hw a
    simp only [WorkerPC.job, Option.toList, List.count_nil] at e2
    omega
  case finish i j hw =>
    have e2 := filterMap_set_count (f := WorkerPC.job) .register hw a
    simp only [WorkerPC.job, Option.toList, List.count_nil] at e2
    simp only [List.count_append]
    omega
  case workerDonePanic i hw hz =>
    have e2 := filterMap_set_count (f := WorkerPC.job) .panicked hw a
    simp only [WorkerPC.job, Option.toList, List.count_nil] at e2
    omega
  case workerDone i hw hz =>
    have e2 := filterMap_set_count (f := WorkerPC.job) .exited hw a
    simp only [WorkerPC.job, Option.toList, List.count_nil] at e2
    omega
  case assign j w hd hw =>
    have e2 := filterMap_set_count (f := WorkerPC.job) (.received j) hw a
    simp only [WorkerPC.job, Option.toList, List.count_nil] at e2
    omega
  case stopWorker i hd hw =>
    have e2 := filterMap_set_count (f := WorkerPC.job) .exiting hw a
    simp only [WorkerPC.job, Option.toList, List.count_nil] at e2
    omega
  all_goals exact e1

theorem jobsInv_step {s s' : State} (h : JobsInv s) (hc : CoreInv s) (hs : Step s s') :
    JobsInv s' :=
  ⟨jobsInv_sta h hc hs, jobsInv_acc h hc hs⟩

theorem filterMap_replicate_unspawned (f : WorkerPC → Option Job) (hf : f .unspawned = none)
    (W : Nat) : (List.replicate W WorkerPC.unspawned).filterMap f = [] := by
  rw [List.filterMap_eq_nil_iff]
  intro a ha
  rw [List.eq_of_mem_replicate ha, hf]

theorem jobsInv_init (W : Nat) (progs : List (List Op)) : JobsInv (initState W progs) where
  sta := by
    simp [initState, State.active, NewJobQueue, filterMap_replicate_unspawned WorkerPC.job rfl]
  acc := by
    simp [initState, State.inWorkers, NewJobQueue, DispPC.held,
      filterMap_replicate_unspawned WorkerPC.holds rfl]

theorem inv_init (W : Nat) (progs : List (List Op)) : Inv (initState W progs) :=
  ⟨flagInv_init W progs, coreInv_init W progs, poolInv_init W progs, jobsInv_init W progs⟩

theorem inv_step {s s' : State} (h : Inv s) (hs : Step s s') : Inv s' :=
  ⟨flagInv_step h.flag hs, coreInv_step h.core hs, poolInv_step h.pool h.core hs,
    jobsInv_step h.jobs h.core hs⟩

theorem inv_of_reachable {W : Nat} {progs : List (List Op)} {s : State}
    (h : Reachable (initState W progs) s) : Inv s :=
  Reachable.invariant (inv_init W progs) (fun _ _ => inv_step) h

/-! ## Properties of the queue -/

theorem cap_of_reachable {W : Nat} {progs : List (List Op)} {s : State}
    (h : Reachable (initState W progs) s) : s.readyPoolCap = W := by
  refine Reachable.invariant (P := fun s => s.readyPoolCap = W) rfl ?_ h
  intro s s' hcap hs
  cases hs <;> exact hcap

theorem workers_length_of_reachable {W : Nat} {progs : List (List Op)} {s : State}
    (h : Reachable (initState W progs) s) : s.workers.length = W :=
  (inv_of_reachable h).core.len.trans (cap_of_reachable h)

theorem filterMap_length_lt {α β : Type} (f : α → Option β) :
    ∀ (l : List α) (i : Nat) (a : α), l[i]? = some a → f a = none →
      (l.filterMap f).length < l.length
  | [], i, a, h, _ => by simp at h
  | b :: l, 0, a, h, ha => by
    simp at h
    subst h
    have := List.length_filterMap_le f l
    simp [List.filterMap_cons, ha]
    omega
  | b :: l, i + 1, a, h, ha => by
    simp at h
    have := filterMap_length_lt f l i a h ha
    cases hb : f b <;> simp [List.filterMap_cons, hb] <;> omega

/-- C2, as stated, fails: a wrapped function that captures its job and
assigns the job's `Func` leaves another `Func` after `Process`. -/
theorem process_func_reassigned :
    (FuncExecutorJob.Process testClosures ⟨⟨none, some 2⟩, false, 0⟩).map (fun w => w.job.Func)
      = some (some 0) ∧
    (FuncExecutorJob.Process testClosures ⟨⟨none, some 2⟩, false, 0⟩).map (fun w => w.job.Func)
      ≠ some (some 2) :=
  ⟨rfl, by decide⟩

/-- C2, amended. On a job whose `Func` is a closure `f`, whatever `Err` holds,
`Process` returns after exactly one call of `f`; afterwards `Err` is what that
call returned (an error exactly when the call failed, nil when it succeeded),
also when the call itself assigned `Err`; `Process` does not assign `Func`,
which is as the call left it, unchanged if the call did not assign it; and
the other variables are as the call left them. -/
theorem process_records_outcome {σ : Type} (closures : Closures σ) (w : World σ) (f : Nat)
    (hf : w.job.Func = some f) :
    ∃ w', FuncExecutorJob.Process closures w = some w' ∧
      w'.calls = w.calls + 1 ∧
      w'.job.Err = (closures f (w.job, w.env)).1 ∧
      (w'.job.Err ≠ none ↔ (closures f (w.job, w.env)).1 ≠ none) ∧
      (w'.job.Err = none ↔ (closures f (w.job, w.env)).1 = none) ∧
      w'.job.Func = (closures f (w.job, w.env)).2.1.Func ∧
      ((closures f (w.job, w.env)).2.1.Func = w.job.Func → w'.job.Func = w.job.Func) ∧
      w'.env = (closures f (w.job, w.env)).2.2 := by
  have hp : FuncExecutorJob.Process closures w =
      some { (invoke closures f w).2 with
             job := { (invoke closures f w).2.job with Err := (invoke closures f w).1 } } := by
    simp only [FuncExecutorJob.Process, hf]
  refine ⟨_, hp, rfl, rfl, Iff.rfl, Iff.rfl, rfl, fun h => h, rfl⟩

theorem process_records_outcome_witness :
    ∃ w', FuncExecutorJob.Process testClosures ⟨⟨none, some 1⟩, false, 0⟩ = some w' ∧
      w'.calls = 1 ∧ w'.job.Err = some "Error while executing function" ∧
      w'.job.Err ≠ none ∧ w'.job.Func = some 1 := by
  obtain ⟨w', h1, h2, h3, h4, _, h6, _⟩ :=
    process_records_outcome testClosures ⟨⟨none, some 1⟩, false, 0⟩ 1 rfl
  exact ⟨w', h1, h2, h3, h4.mpr (by decide), h6⟩

/-- C5. In every reachable state the jobs whose `Process` has begun and not
returned are the jobs the workers are running, at most `W` of them; when `W`
of them are running no further `Process` can begin: no worker can be handed a
job and no step of a worker begins a `Process`. -/
theorem active_le_workers (W : Nat) (progs : List (List Op)) (s : State)
    (h : Reachable (initState W progs) s) :
    s.started.Perm (s.finished ++ s.active) ∧ s.active.length ≤ W ∧
    s.started.length ≤ s.finished.length + W ∧
    (s.active.length = W → step Label.assign s = none ∧
      ∀ i s', step (.worker i) s = some s' → s'.started = s.started) := by
  have hinv := inv_of_reachable h
  have hlen := workers_length_of_reachable h
  have hact : s.active.length ≤ W := hlen ▸ List.length_filterMap_le _ _
  refine ⟨hinv.jobs.sta, hact, ?_, ?_⟩
  · have := hinv.jobs.sta.length_eq
    simp only [List.length_append] at this
    omega
  · intro hfull
    unfold State.active at hfull
    constructor
    · cases hst : step Label.assign s with
      | none => rfl
      | some s' =>
        exfalso
        simp only [step, assignRendezvous] at hst
        split at hst
        · split at hst
          · rename_i hw
            have := filterMap_length_lt WorkerPC.job _ _ _ hw rfl
            omega
          · simp at hst
        · simp at hst
    · intro i s' hst
      simp only [step, workerStep] at hst
      repeat' split at hst
      all_goals first
        | (simp at hst; done)
        | (simp only [Option.some.injEq] at hst; subst hst; rfl)
        | (rename_i hw
           have := filterMap_length_lt WorkerPC.job _ _ _ hw rfl
           omega)

theorem reachable_exec (ls : List Label) (s0 : State) : Reachable s0 (exec ls s0) := by
  unfold exec
  cases h : run ls s0 with
  | none => exact Reachable.init
  | some s => exact reachable_of_run ls _ _ Reachable.init h

theorem active_le_workers_witness :
    (exec busySchedule (initState 1 [[.submit 7, .submit 8]])).active = [7] ∧
    (exec busySchedule (initState 1 [[.submit 7, .submit 8]])).disp = .haveJob (some 8) ∧
    (exec busySchedule (initState 1 [[.submit 7, .submit 8]])).active.length ≤ 1 ∧
    step Label.assign (exec busySchedule (initState 1 [[.submit 7, .submit 8]])) = none :=
  ⟨rfl, rfl,
    (active_le_workers 1 [[.submit 7, .submit 8]] _ (reachable_exec busySchedule _)).2.1,
    ((active_le_workers 1 [[.submit 7, .submit 8]] _ (reachable_exec busySchedule _)).2.2.2
      rfl).1⟩

/-- C4. In every reachable state whose `stopped` flag is true, a client that
calls `Submit(j)` returns in one step: the job is not sent on `internalQueue`,
its `Process` is not called, and nothing of the queue changes. -/
theorem submit_on_stopped (W : Nat) (progs : List (List Op)) (s : State)
    (h : Reachable (initState W progs) s) (hst : s.stopped = true)
    (c : Nat) (cl : Client) (j : Job) (rest : List Op)
    (hc : s.clients[c]? = some cl) (hpc : cl.pc = .idle) (hpr : cl.prog = .submit j :: rest) :
    ∃ s', step (.client c) s = some s' ∧
      s' = { s with clients := s.clients.set c ⟨.idle, rest⟩, returned := s.returned ++ [j] } ∧
      s'.toJobQueue = s.toJobQueue ∧ s'.disp = s.disp ∧ s'.accepted = s.accepted ∧
      s'.started = s.started ∧ s'.finished = s.finished ∧
      s'.clients[c]? = some ⟨.idle, rest⟩ := by
  have hinv := (inv_of_reachable h).flag
  have hcalled := hinv.flagSet hst
  have hmain := (hinv.called hcalled).2
  have hmutex := hinv.mutex (Or.inr hmain)
  have hlt : c < s.clients.length := (List.getElem?_eq_some_iff.mp hc).1
  refine ⟨_, ?_, rfl, rfl, rfl, rfl, rfl, rfl, ?_⟩
  · simp only [step, clientStep, hmain, if_true, hc]
    rw [hpc, hpr]
    simp [JobQueue.getStopped, hmutex, hst]
  · simp [hlt]

theorem submit_on_stopped_witness :
    (exec stopEnteredSchedule (initState 1 [[.stop], [.submit 7]])).stopped = true ∧
    ∃ s', step (.client 1) (exec stopEnteredSchedule (initState 1 [[.stop], [.submit 7]]))
        = some s' ∧
      s'.toJobQueue = (exec stopEnteredSchedule (initState 1 [[.stop], [.submit 7]])).toJobQueue ∧
      s'.accepted = [] ∧ s'.started = [] ∧ s'.clients[1]? = some ⟨.idle, []⟩ := by
  obtain ⟨s', h1, _, h2, _, h3, h4, _, h5⟩ :=
    submit_on_stopped 1 [[.stop], [.submit 7]] _ (reachable_exec stopEnteredSchedule _)
      rfl 1 ⟨.idle, [.submit 7]⟩ 7 [] rfl rfl rfl
  exact ⟨rfl, s', h1, h2, h3, h4, h5⟩

/-- C8, as stated, fails: on a queue fresh from `NewJobQueue`, before `Start`
has created the mutex, `Stopped()` dereferences nil instead of returning the
flag. -/
theorem stopped_fails_before_start :
    (NewJobQueue 1).Stopped = none ∧ (NewJobQueue 1).Stopped ≠ some (NewJobQueue 1).stopped :=
  ⟨rfl, by decide⟩

/-- C8, amended. Once `Start` has returned, in every reachable state
`Stopped()` returns the current value of the `stopped` flag and does not
fail. -/
theorem stopped_returns_flag (W : Nat) (progs : List (List Op)) (s : State)
    (h : Reachable (initState W progs) s) (hm : s.main = .returned) :
    s.toJobQueue.Stopped = some s.stopped := by
  have := (inv_of_reachable h).flag.mutex (Or.inr hm)
  simp [JobQueue.Stopped, JobQueue.getStopped, this]

theorem stopped_returns_flag_witness :
    (exec stopEnteredSchedule (initState 1 [[.stop], [.submit 7]])).main = .returned ∧
    (exec stopEnteredSchedule (initState 1 [[.stop], [.submit 7]])).toJobQueue.Stopped
      = some true :=
  ⟨rfl, stopped_returns_flag 1 [[.stop], [.submit 7]] _ (reachable_exec stopEnteredSchedule _) rfl⟩

/-- C7, as stated, fails: after the dispatcher has taken the worker's channel
out of the ready pool and before it has handed over the job, the worker is
not in the pool, is not running `Process` and has not been told to stop. -/
theorem checked_out_worker_not_in_pool :
    (exec checkedOutSchedule (initState 1 [[.submit 7]])).main = .returned ∧
    (exec checkedOutSchedule (initState 1 [[.submit 7]])).workers[0]? = some .select ∧
    0 ∉ (exec checkedOutSchedule (initState 1 [[.submit 7]])).readyPool ∧
    ¬ ∀ (w : Nat) (pc : WorkerPC),
      (exec checkedOutSchedule (initState 1 [[.submit 7]])).workers[w]? = some pc →
        w ∈ (exec checkedOutSchedule (initState 1 [[.submit 7]])).readyPool ∨
          (∃ j, pc = .processing j) ∨ pc = .exiting ∨ pc = .exited := by
  refine ⟨rfl, rfl, by decide, fun hall => ?_⟩
  rcases hall 0 .select rfl with h | ⟨j, h⟩ | h | h
  · exact absurd h (by decide)
  · cases h
  · cases h
  · cases h

/-- C7, amended. In every reachable state of a started queue, each worker's
assignment channel is in the ready pool unless the worker is running
`Process`, or has received a job and not yet called its `Process`, or has
received its stop signal, or has not yet executed its registration send, or has
been checked out by the dispatcher, which is about to hand it a job. -/
theorem worker_in_pool_unless (W : Nat) (progs : List (List Op)) (s : State)
    (h : Reachable (initState W progs) s) (hm : s.main = .returned)
    (w : Nat) (pc : WorkerPC) (hw : s.workers[w]? = some pc) :
    w ∈ s.readyPool ∨ (∃ j, pc = .processing j) ∨ (∃ j, pc = .received (some j)) ∨
      (pc = .exiting ∨ pc = .exited) ∨ (pc = .add ∨ pc = .register) ∨
      (pc = .select ∧ ∃ j, s.disp = .haveWorker (some j) w) := by
  have hinv := inv_of_reachable h
  cases pc with
  | unspawned =>
    have := hinv.core.spawn w _ hw
    rw [hm] at this
    simp [spawnOk] at this
  | add => simp
  | register => simp
  | select =>
    rcases hinv.pool.sel w hw with hp | ⟨j, hj⟩
    · exact Or.inl hp
    · cases j with
      | none => exact absurd hj (hinv.core.js.2 w)
      | some j => exact Or.inr (Or.inr (Or.inr (Or.inr (Or.inr ⟨rfl, j, hj⟩))))
  | received j =>
    cases j with
    | none => exact absurd rfl (hinv.core.rs _ (List.getElem?_mem hw))
    | some j => exact Or.inr (Or.inr (Or.inl ⟨j, rfl⟩))
  | processing j => exact Or.inr (Or.inl ⟨j, rfl⟩)
  | exiting => simp
  | exited => simp
  | panicked => exact absurd rfl (hinv.core.nowp _ (List.getElem?_mem hw))

theorem worker_in_pool_unless_witness :
    (exec startOne (initState 1 [[.submit 7]])).workers[0]? = some .select ∧
    0 ∈ (exec startOne (initState 1 [[.submit 7]])).readyPool := by
  refine ⟨rfl, ?_⟩
  rcases worker_in_pool_unless 1 [[.submit 7]] _ (reachable_exec startOne _) rfl 0 .select rfl
    with h | ⟨j, h⟩ | ⟨j, h⟩ | h | h | ⟨_, j, h⟩
  · exact h
  · cases h
  · cases h
  · rcases h with h | h <;> cases h
  · rcases h with h | h <;> cases h
  · have hd : (exec startOne (initState 1 [[.submit 7]])).disp = .select := rfl
    rw [hd] at h
    cases h

/-- C10, as stated, fails: once `Stop` has set the flag, every `Submit`
returns at once with its job dropped, so the jobs whose `Submit` has returned
and whose `Process` has not are not bounded by `W + 1`. -/
theorem dropped_jobs_exceed_bound :
    (exec droppedSchedule (initState 1 [[.stop], [.submit 0, .submit 1, .submit 2]])).returned
      = [0, 1, 2] ∧
    (exec droppedSchedule (initState 1 [[.stop], [.submit 0, .submit 1, .submit 2]])).finished
      = [] ∧
    ¬ (exec droppedSchedule
        (initState 1 [[.stop], [.submit 0, .submit 1, .submit 2]])).returned.length ≤
      (exec droppedSchedule
        (initState 1 [[.stop], [.submit 0, .submit 1, .submit 2]])).finished.length + 1 + 1 :=
  ⟨rfl, rfl, by decide⟩

/-- C10, amended. In every reachable state the jobs the dispatcher has
received from `Submit` and whose `Process` has not returned are the job held
by the dispatcher, if any, and the jobs held by the workers (received and not
yet begun, or running): at most `W + 1`; and while the dispatcher holds a job
no `Submit` can hand over another. -/
theorem accepted_le_workers_succ (W : Nat) (progs : List (List Op)) (s : State)
    (h : Reachable (initState W progs) s) :
    s.accepted.Perm (s.finished ++ s.inWorkers ++ s.disp.held.toList) ∧
    s.disp.held.toList.length ≤ 1 ∧ s.inWorkers.length ≤ W ∧
    s.accepted.length ≤ s.finished.length + W + 1 ∧
    (s.disp.held ≠ none → ∀ c, step (.submit c) s = none) := by
  have hinv := inv_of_reachable h
  have hlen := workers_length_of_reachable h
  have hact : s.inWorkers.length ≤ W := hlen ▸ List.length_filterMap_le _ _
  have hperm : s.accepted.Perm (s.finished ++ s.inWorkers ++ s.disp.held.toList) :=
    hinv.jobs.acc
  have hheld : s.disp.held.toList.length ≤ 1 := by
    cases s.disp.held <;> simp [Option.toList]
  refine ⟨hperm, hheld, hact, ?_, ?_⟩
  · have := hperm.length_eq
    simp only [List.length_append] at this
    omega
  · intro hne c
    simp only [step, submitRendezvous]
    split
    · rename_i hd
      rw [hd] at hne
      simp [DispPC.held] at hne
    · rfl

theorem accepted_le_workers_succ_witness :
    (exec busySchedule (initState 1 [[.submit 7, .submit 8]])).accepted = [7, 8] ∧
    (exec busySchedule (initState 1 [[.submit 7, .submit 8]])).finished = [] ∧
    (exec busySchedule (initState 1 [[.submit 7, .submit 8]])).accepted.length ≤ 0 + 1 + 1 :=
  ⟨rfl, rfl,
    (accepted_le_workers_succ 1 [[.submit 7, .submit 8]] _ (reachable_exec busySchedule _)).2.2.2.1⟩

theorem zeroInv_step {s s' : State} (h : ZeroInv s) (hc : CoreInv s) (hs : Step s s') :
    ZeroInv s' := by
  obtain ⟨h1, h2, h3, h4⟩ := h
  have h5 := hc.dm
  cases hs
  all_goals constructor
  all_goals dsimp only
  all_goals first
    | assumption
    | (simp_all [dispOk]; done)

theorem zeroInv_of_reachable {progs : List (List Op)} {s : State}
    (h : Reachable (initState 0 progs) s) : ZeroInv s := by
  have : ZeroInv s ∧ CoreInv s := by
    refine Reachable.invariant (P := fun s => ZeroInv s ∧ CoreInv s) ⟨?_, coreInv_init 0 progs⟩
      (fun s s' hp hs => ⟨zeroInv_step hp.1 hp.2 hs, coreInv_step hp.2 hs⟩) h
    constructor <;> simp [initState, NewJobQueue]
  exact this.1

/-- C6, as stated, fails: on a started queue built with `NewJobQueue(0)` the
dispatcher is at its `select` and receives the first job, so the first
`Submit` returns. -/
theorem first_submit_returns_without_workers :
    (exec zeroSchedule (initState 0 [[.submit 7]])).returned = [7] ∧
    (exec zeroSchedule (initState 0 [[.submit 7]])).clients = [⟨.idle, []⟩] ∧
    (exec zeroSchedule (initState 0 [[.submit 7]])).disp = .haveJob (some 7) :=
  ⟨rfl, rfl, rfl⟩

/-- C6, amended. On a queue built with `NewJobQueue(0)` no job's `Process`
ever begins and the dispatcher receives at most one job: after the first send
on the submission channel has been received the dispatcher waits for a ready
worker for ever, so no later send (of a job or of the quit signal) is
received. -/
theorem zero_workers_accept_one (progs : List (List Op)) (s : State)
    (h : Reachable (initState 0 progs) s) :
    s.started = [] ∧ s.accepted.length ≤ 1 ∧
    (s.accepted ≠ [] → step .dispatcher s = none ∧
      ∀ c, step (.submit c) s = none ∧ step (.quit c) s = none) := by
  have hz := zeroInv_of_reachable h
  refine ⟨hz.started, ?_, ?_⟩
  · rcases hz.acc with h0 | ⟨j, hj, _⟩
    · simp [h0]
    · simp [hj]
  · intro hne
    rcases hz.acc with h0 | ⟨j, _, hd⟩
    · exact absurd h0 hne
    · refine ⟨?_, fun c => ⟨?_, ?_⟩⟩
      · simp [step, dispatchStep, hd, hz.pool]
      · simp only [step, submitRendezvous, hd]
        split <;> simp_all
      · simp only [step, quitRendezvous, hd]
        split <;> simp_all

theorem zero_workers_accept_one_witness :
    (exec zeroSchedule (initState 0 [[.submit 7], [.submit 8]])).accepted = [7] ∧
    (exec zeroSchedule (initState 0 [[.submit 7], [.submit 8]])).started = [] ∧
    step (.submit 1) (exec zeroSchedule (initState 0 [[.submit 7], [.submit 8]])) = none :=
  ⟨rfl,
    (zero_workers_accept_one [[.submit 7], [.submit 8]] _ (reachable_exec zeroSchedule _)).1,
    (((zero_workers_accept_one [[.submit 7], [.submit 8]] _
      (reachable_exec zeroSchedule _)).2.2 (by decide)).2 1).1⟩

/-! ## Executions for every number of workers -/

theorem fill_zero {α : Type} (n : Nat) (a b : α) : fill 0 n a b = List.replicate n b := by
  simp [fill]

theorem fill_full {α : Type} (n : Nat) (a b : α) : fill n n a b = List.replicate n a := by
  simp [fill]

theorem fill_length {α : Type} {i n : Nat} (a b : α) (h : i ≤ n) : (fill i n a b).length = n := by
  simp [fill]; omega

theorem fill_get {α : Type} {i n : Nat} (a b : α) (h : i < n) : (fill i n a b)[i]? = some b := by
  unfold fill
  rw [List.getElem?_append_right (by simp)]
  simp only [List.length_replicate, Nat.sub_self]
  rw [List.getElem?_replicate]
  simp
  omega

theorem fill_set {α : Type} {i n : Nat} (a b x : α) (h : i < n) :
    (fill i n a b).set i x = List.replicate i a ++ x :: List.replicate (n - (i + 1)) b := by
  unfold fill
  rw [List.set_append_right _ _ (by simp)]
  simp only [List.length_replicate, Nat.sub_self]
  obtain ⟨m, hm⟩ : ∃ m, n - i = m + 1 := ⟨n - i - 1, by omega⟩
  rw [hm, List.replicate_succ, List.set_cons_zero]
  congr
  omega

theorem fill_succ {α : Type} {i n : Nat} (a b : α) (h : i < n) :
    (fill i n a b).set i a = fill (i + 1) n a b := by
  rw [fill_set a b a h]
  unfold fill
  rw [List.replicate_succ', List.append_assoc]
  rfl

theorem reach_loop (f : Nat → State) (l : Nat → Label) :
    ∀ n : Nat, (∀ i < n, step (l i) (f i) = some (f (i + 1))) → Reachable (f 0) (f n)
  | 0, _ => Reachable.init
  | n + 1, h =>
    Reachable.step (l n) (reach_loop f l n (fun i hi => h i (Nat.lt_succ_of_lt hi)))
      (h n (Nat.lt_succ_self n))

theorem spawning_step (W : Nat) (progs : List (List Op)) (i : Nat) (h : i < W) :
    step .main (spawning W progs i) = some (spawning W progs (i + 1)) := by
  simp [step, startStep, spawning, fill_length _ _ (Nat.le_of_lt h), h, fill_succ _ _ h]

theorem adding_step (W : Nat) (progs : List (List Op)) (i : Nat) (h : i < W) :
    step (.worker i) (adding W progs i) = some (adding W progs (i + 1)) := by
  simp [step, workerStep, adding, fill_get _ _ h, fill_succ _ _ h]

theorem registering_step (W : Nat) (progs : List (List Op)) (i : Nat) (h : i < W) :
    step (.worker i) (registering W progs i) = some (registering W progs (i + 1)) := by
  simp [step, workerStep, registering, fill_get _ _ h, fill_succ _ _ h, initState, NewJobQueue, h,
    List.range_succ]

theorem idle_reachable (W : Nat) (progs : List (List Op)) :
    Reachable (initState W progs) (idleState W progs) := by
  have h0 : initState W progs = spawning W progs 0 := by
    simp [spawning, fill_zero, initState, NewJobQueue]
  have h1 : Reachable (initState W progs) (spawning W progs W) := by
    rw [h0]
    exact reach_loop (spawning W progs) (fun _ => .main) W (spawning_step W progs)
  have h2 : Reachable (initState W progs) (adding W progs 0) := by
    refine reachable_of_run [.main, .main, .main, .main] _ _ h1 ?_
    simp [run, step, startStep, spawning, adding, fill_length, fill_full, fill_zero,
      JobQueue.setStopped, initState, NewJobQueue]
  have h3 : Reachable (initState W progs) (adding W progs W) :=
    h2.trans (reach_loop (adding W progs) (fun i => .worker i) W (adding_step W progs))
  have h4 : adding W progs W = registering W progs 0 := by
    simp [adding, registering, fill_full, fill_zero, initState, NewJobQueue]
  have h5 : Reachable (initState W progs) (registering W progs W) := by
    rw [h4] at h3
    exact h3.trans
      (reach_loop (registering W progs) (fun i => .worker i) W (registering_step W progs))
  refine Reachable.step .dispatcher h5 ?_
  simp [step, dispatchStep, registering, idleState, fill_full, initState, NewJobQueue]

theorem stoppingAt_step (b : State) (W i : Nat) (h : i < W) :
    step .stopWorker (stoppingAt b W i) = some (stoppingAt b W (i + 1)) := by
  simp [step, stopWorkerRendezvous, stoppingAt, fill_get _ _ h, fill_succ _ _ h]

theorem exitingAt_step (b : State) (W i : Nat) (h : i < W) :
    step (.worker i) (exitingAt b W i) = some (exitingAt b W (i + 1)) := by
  have h1 : W - i ≠ 0 := by omega
  have h2 : W - i - 1 = W - (i + 1) := by omega
  simp [step, workerStep, exitingAt, fill_get _ _ h, fill_succ _ _ h, h1, h2]

theorem shutdown_reachable (b : State) (W : Nat) (hws : b.workersStopped = W)
    (hds : b.dispatcherStopped = 1) : Reachable (stoppingAt b W 0) (shutDown b W) := by
  have h1 : Reachable (stoppingAt b W 0) (stoppingAt b W W) :=
    reach_loop (stoppingAt b W) (fun _ => .stopWorker) W (stoppingAt_step b W)
  have h2 : Reachable (stoppingAt b W 0) (exitingAt b W 0) := by
    refine Reachable.step .dispatcher h1 ?_
    simp [step, dispatchStep, stoppingAt, exitingAt, fill_length, fill_full, fill_zero, hws]
  have h3 : Reachable (stoppingAt b W 0) (exitingAt b W W) :=
    h2.trans (reach_loop (exitingAt b W) (fun i => .worker i) W (exitingAt_step b W))
  refine reachable_of_run [.dispatcher, .dispatcher] _ _ h3 ?_
  simp [run, step, dispatchStep, exitingAt, shutDown, fill_full, hds]

theorem quiescent_step {s s' : State} (h : Quiescent s) (hs : Step s s') :
    Quiescent s' ∧ s'.started = s.started := by
  obtain ⟨h1, h2, h3⟩ := h
  have key : ∀ (i : Nat) (pc : WorkerPC), s.workers[i]? = some pc → pc = .exited :=
    fun i pc hi => h3 pc (List.getElem?_mem hi)
  cases hs
  all_goals first
    | exact ⟨⟨h1, h2, h3⟩, rfl⟩
    | (exfalso; simp_all; done)
    | (exfalso; have := key _ _ ‹_›; simp at this; done)

theorem quiescent_reachable {s s' : State} (h : Quiescent s) (hr : Reachable s s') :
    Quiescent s' ∧ s'.started = s.started := by
  induction hr with
  | init => exact ⟨h, rfl⟩
  | step l _ hs ih =>
    have := quiescent_step ih.1 (Step.of_step hs)
    exact ⟨this.1, this.2.trans ih.2⟩

theorem active_nil_of_stopReturned {W : Nat} {progs : List (List Op)} {s : State}
    (h : Reachable (initState W progs) s) (hr : s.stopReturned = true) :
    s.disp = .exited ∧ (∀ pc ∈ s.workers, pc = .exited) ∧ s.active = [] := by
  have hinv := inv_of_reachable h
  have hd := hinv.core.closed (hinv.core.sr hr)
  have hall : ∀ pc ∈ s.workers, pc = .exited := by
    intro pc hpc
    obtain ⟨k, hk⟩ := List.mem_iff_getElem?.mp hpc
    have := hinv.core.gone k pc hk
    rw [hd] at this
    exact this
  refine ⟨hd, hall, ?_⟩
  unfold State.active
  rw [List.filterMap_eq_nil_iff]
  intro pc hpc
  rw [hall pc hpc]
  rfl

theorem raceRead_reachable (W : Nat) (j : Job) :
    Reachable (initState W (race j)) (raceRead W j) := by
  refine Reachable.step (.client 0) (idle_reachable W (race j)) ?_
  simp [step, clientStep, idleState, raceRead, initState, race, JobQueue.getStopped, NewJobQueue]

theorem raceStopped_reachable (W : Nat) (j : Job) :
    Reachable (raceRead W j) (raceStopped W j) := by
  have h1 : Reachable (raceRead W j) (stoppingAt (raceQuit W j) W 0) := by
    refine reachable_of_run [.client 1, .quit 1] _ _ Reachable.init ?_
    simp [run, step, clientStep, quitRendezvous, idleState, raceRead, raceQuit, stoppingAt,
      initState, race, JobQueue.setStopped, NewJobQueue, fill_zero]
  have h2 := h1.trans (shutdown_reachable (raceQuit W j) W rfl rfl)
  refine reachable_of_run [.client 1, .client 1] _ _ h2 ?_
  simp [run, step, clientStep, shutDown, raceQuit, raceStopped, idleState, initState, race,
    NewJobQueue]

theorem racePanicked_step (W : Nat) (j : Job) :
    step (.client 0) (raceStopped W j) = some (racePanicked W j) := by
  simp [step, clientStep, shutDown, raceQuit, raceStopped, racePanicked, idleState, initState]

/-- C9. For every `W ≥ 1` there is an execution of one `Submit(j)` and one
`Stop()` on a started idle queue in which `Submit` reads the flag as false,
`Stop` then sets the flag, shuts down the dispatcher and the workers and
closes the submission channel, and the send of `Submit` hits the closed
channel, after which `Process` of `j` is never called; and in every execution
of any clients, when `Stop` has returned no `Process` is running: every job
whose `Process` began has returned. -/
theorem submit_racing_stop (W : Nat) (hW : 1 ≤ W) (j : Job) :
    (∃ s1 s2 s3 : State,
      Reachable (initState W (race j)) s1 ∧
      s1.readyPool = List.range W ∧ 0 ∈ s1.readyPool ∧ s1.disp = .select ∧ s1.started = [] ∧
      s1.stopped = false ∧ s1.stopCalled = false ∧
      s1.clients = [⟨.sending j, []⟩, ⟨.idle, [.stop]⟩] ∧
      Reachable s1 s2 ∧
      s2.stopped = true ∧ s2.stopReturned = true ∧ s2.internalQueueClosed = true ∧
      s2.disp = .exited ∧ s2.workers = List.replicate W .exited ∧
      s2.clients = [⟨.sending j, []⟩, ⟨.idle, []⟩] ∧
      step (.client 0) s2 = some s3 ∧
      s3.clients = [⟨.panicked, []⟩, ⟨.idle, []⟩] ∧
      ∀ s', Reachable s3 s' → j ∉ s'.started) ∧
    (∀ (progs : List (List Op)) (s : State), Reachable (initState W progs) s →
      s.stopReturned = true → s.active = [] ∧ s.started.Perm s.finished) := by
  constructor
  · refine ⟨raceRead W j, raceStopped W j, racePanicked W j, raceRead_reachable W j,
      rfl, List.mem_range.mpr hW, rfl, rfl, rfl, rfl, rfl, raceStopped_reachable W j,
      rfl, rfl, rfl, rfl, rfl, rfl, racePanicked_step W j, rfl, ?_⟩
    intro s' hs'
    have hq : Quiescent (racePanicked W j) := by
      refine ⟨rfl, rfl, ?_⟩
      intro pc hpc
      exact List.eq_of_mem_replicate hpc
    rw [(quiescent_reachable hq hs').2]
    simp [racePanicked, raceStopped, shutDown, raceQuit, idleState, initState]
  · intro progs s h hr
    obtain ⟨_, _, hact⟩ := active_nil_of_stopReturned h hr
    refine ⟨hact, ?_⟩
    have := (inv_of_reachable h).jobs.sta
    rwa [hact, List.append_nil] at this

theorem submit_racing_stop_witness :
    1 ≤ 1 ∧
    (∃ s3 : State, Reachable (initState 1 (race 7)) s3 ∧
      s3.clients = [⟨.panicked, []⟩, ⟨.idle, []⟩] ∧ 7 ∉ s3.started) := by
  obtain ⟨⟨s1, s2, s3, h1, _, _, _, _, _, _, _, h2, _, _, _, _, _, _, h3, hc, hn⟩, _⟩ :=
    submit_racing_stop 1 (by decide) 7
  have h23 : Reachable s2 s3 := Reachable.step (.client 0) Reachable.init h3
  exact ⟨by decide, s3, (h1.trans h2).trans h23, hc, hn s3 Reachable.init⟩

theorem stopDone_reachable (W : Nat) : Reachable (idleState W [[.stop]]) (stopDone W) := by
  have h1 : Reachable (idleState W [[.stop]]) (stoppingAt (stopQuit W) W 0) := by
    refine reachable_of_run [.client 0, .quit 0] _ _ Reachable.init ?_
    simp [run, step, clientStep, quitRendezvous, idleState, stopQuit, stoppingAt,
      initState, JobQueue.setStopped, NewJobQueue, fill_zero]
  have h2 := h1.trans (shutdown_reachable (stopQuit W) W rfl rfl)
  refine reachable_of_run [.client 0, .client 0] _ _ h2 ?_
  simp [run, step, clientStep, shutDown, stopQuit, stopDone, idleState, initState, NewJobQueue]

/-- C3. In every reachable state, `Stopped()` returns false once `Start` has
returned as long as `Stop` has not been entered, and returns true once a
`Stop` has returned; and on a queue that is started and then stopped both
states are reached. -/
theorem stopped_false_then_true (W : Nat) :
    (∀ (progs : List (List Op)) (s : State), Reachable (initState W progs) s →
      (s.main = .returned → s.stopCalled = false → s.toJobQueue.Stopped = some false) ∧
      (s.stopReturned = true → s.toJobQueue.Stopped = some true)) ∧
    (∃ s1 s2 : State, Reachable (initState W [[.stop]]) s1 ∧ s1.main = .returned ∧
      s1.stopCalled = false ∧ s1.toJobQueue.Stopped = some false ∧
      Reachable s1 s2 ∧ s2.stopReturned = true ∧ s2.toJobQueue.Stopped = some true) := by
  constructor
  · intro progs s h
    have hinv := (inv_of_reachable h).flag
    constructor
    · intro hm hc
      simp [JobQueue.Stopped, JobQueue.getStopped, hinv.mutex (Or.inr hm), hinv.notCalled hm hc]
    · intro hr
      have hc := hinv.ret hr
      have := hinv.called hc
      simp [JobQueue.Stopped, JobQueue.getStopped, hinv.mutex (Or.inr this.2), this.1]
  · exact ⟨idleState W [[.stop]], stopDone W, idle_reachable W _, rfl, rfl, rfl,
      stopDone_reachable W, rfl, rfl⟩

theorem stopped_false_then_true_witness :
    (exec startOne (initState 1 [[.submit 7, .stop]])).toJobQueue.Stopped = some false ∧
    (exec fullSchedule (initState 1 [[.submit 7, .stop]])).toJobQueue.Stopped = some true :=
  ⟨((stopped_false_then_true 1).1 [[.submit 7, .stop]] _ (reachable_exec startOne _)).1 rfl rfl,
    ((stopped_false_then_true 1).1 [[.submit 7, .stop]] _ (reachable_exec fullSchedule _)).2 rfl⟩

/-! ## One producer: every job is processed exactly once -/

theorem measure_step {s s' : State} (hc : CoreInv s) (hs : Step s s') :
    s'.measure < s.measure := by
  have hdm := hc.dm
  have hcl := hc.closed
  cases hs
  case spawn i hm hi =>
    obtain ⟨pc, hpc⟩ : ∃ pc, s.workers[i]? = some pc := ⟨_, List.getElem?_eq_getElem hi⟩
    have h2 := hc.spawn i pc hpc
    rw [hm] at h2
    simp only [spawnOk, le_refl, iff_true] at h2
    subst h2
    have := sum_map_set WorkerPC.rank .add _ _ _ hpc
    simp only [State.measure, List.length_set, hm, MainPC.rank, WorkerPC.rank] at this ⊢
    omega
  case spawnDone i hm hi =>
    simp only [State.measure, hm, MainPC.rank]
    omega
  case goDispatch hm =>
    rw [hm] at hdm
    simp only [dispOk] at hdm
    simp only [State.measure, hm, hdm, MainPC.rank, DispPC.rank]
    omega
  case newMutex hm => simp only [State.measure, hm, MainPC.rank]; omega
  case setStopped hm hx => simp only [State.measure, hm, MainPC.rank]; omega
  case dispAdd hd => simp only [State.measure, hd, DispPC.rank]; omega
  case recvClosed hd hq =>
    have := hcl hq
    rw [hd] at this
    cases this
  case checkout j w rest hd hp => simp only [State.measure, hd, DispPC.rank]; omega
  case stopLoopDone i hd hi => simp only [State.measure, hd, DispPC.rank]; omega
  case waitWorkers hd hz => simp only [State.measure, hd, DispPC.rank]; omega
  case dispDonePanic hd hz => simp only [State.measure, hd, DispPC.rank]; omega
  case dispDone hd hz => simp only [State.measure, hd, DispPC.rank]; omega
  case workerAdd i hw =>
    have := sum_map_set WorkerPC.rank .register _ _ _ hw
    simp only [State.measure, List.length_set, WorkerPC.rank] at this ⊢
    omega
  case register i hw hp =>
    have := sum_map_set WorkerPC.rank .select _ _ _ hw
    simp only [State.measure, List.length_set, WorkerPC.rank] at this ⊢
    omega
  case finish i j hw =>
    have := sum_map_set WorkerPC.rank .register _ _ _ hw
    simp only [State.measure, List.length_set, WorkerPC.rank] at this ⊢
    omega
  case workerDonePanic i hw hz =>
    have := sum_map_set WorkerPC.rank .panicked _ _ _ hw
    simp only [State.measure, List.length_set, WorkerPC.rank] at this ⊢
    omega
  case workerDone i hw hz =>
    have := sum_map_set WorkerPC.rank .exited _ _ _ hw
    simp only [State.measure, List.length_set, WorkerPC.rank] at this ⊢
    omega
  case submitNil c cl j rest hm hcl' hpc hpr hx =>
    have := sum_map_set Client.weight ⟨.panicked, rest⟩ _ _ _ hcl'
    simp only [State.measure, Client.weight, hpc, hpr, ClientPC.rank, Op.weight, List.map_cons,
      List.sum_cons] at this ⊢
    omega
  case submitDropped c cl j rest hm hcl' hpc hpr hx hst =>
    have := sum_map_set Client.weight ⟨.idle, rest⟩ _ _ _ hcl'
    simp only [State.measure, Client.weight, hpc, hpr, ClientPC.rank, Op.weight, List.map_cons,
      List.sum_cons] at this ⊢
    omega
  case submitEnter c cl j rest hm hcl' hpc hpr hx hst =>
    have := sum_map_set Client.weight ⟨.sending j, rest⟩ _ _ _ hcl'
    simp only [State.measure, Client.weight, hpc, hpr, ClientPC.rank, Op.weight, List.map_cons,
      List.sum_cons] at this ⊢
    omega
  case stopNil c cl rest hm hcl' hpc hpr hx =>
    have := sum_map_set Client.weight ⟨.panicked, rest⟩ _ _ _ hcl'
    simp only [State.measure, Client.weight, hpc, hpr, ClientPC.rank, Op.weight, List.map_cons,
      List.sum_cons] at this ⊢
    omega
  case stopEnter c cl rest hm hcl' hpc hpr hx =>
    have := sum_map_set Client.weight ⟨.stopQuit, rest⟩ _ _ _ hcl'
    simp only [State.measure, Client.weight, hpc, hpr, ClientPC.rank, Op.weight, List.map_cons,
      List.sum_cons] at this ⊢
    omega
  case sendClosed c cl j hm hcl' hpc hq =>
    have := sum_map_set Client.weight ⟨.panicked, cl.prog⟩ _ _ _ hcl'
    simp only [State.measure, Client.weight, hpc, ClientPC.rank] at this ⊢
    omega
  case stopWaitDone c cl hm hcl' hpc hz =>
    have := sum_map_set Client.weight ⟨.stopClose, cl.prog⟩ _ _ _ hcl'
    simp only [State.measure, Client.weight, hpc, ClientPC.rank] at this ⊢
    omega
  case closeClosed c cl hm hcl' hpc hq =>
    have := sum_map_set Client.weight ⟨.panicked, cl.prog⟩ _ _ _ hcl'
    simp only [State.measure, Client.weight, hpc, ClientPC.rank] at this ⊢
    omega
  case close c cl hm hcl' hpc hq =>
    have := sum_map_set Client.weight ⟨.idle, cl.prog⟩ _ _ _ hcl'
    simp only [State.measure, Client.weight, hpc, ClientPC.rank] at this ⊢
    omega
  case submit c j rest hcl' hd hq =>
    have := sum_map_set Client.weight ⟨.idle, rest⟩ _ _ _ hcl'
    simp only [State.measure, Client.weight, hd, ClientPC.rank, DispPC.rank] at this ⊢
    omega
  case quit c rest hcl' hd =>
    have := sum_map_set Client.weight ⟨.stopWait, rest⟩ _ _ _ hcl'
    simp only [State.measure, Client.weight, hd, ClientPC.rank, DispPC.rank] at this ⊢
    omega
  case assign j w hd hw =>
    have := sum_map_set WorkerPC.rank (.received j) _ _ _ hw
    simp only [State.measure, List.length_set, hd, WorkerPC.rank, DispPC.rank] at this ⊢
    omega
  case begin i j hw =>
    have := sum_map_set WorkerPC.rank (.processing j) _ _ _ hw
    simp only [State.measure, List.length_set, WorkerPC.rank] at this ⊢
    omega
  case beginNil i hw =>
    have := sum_map_set WorkerPC.rank .panicked _ _ _ hw
    simp only [State.measure, List.length_set, WorkerPC.rank] at this ⊢
    omega
  case stopWorker i hd hw =>
    have := sum_map_set WorkerPC.rank .exiting _ _ _ hw
    have hlt : i < s.workers.length := (List.getElem?_eq_some_iff.mp hw).1
    simp only [State.measure, List.length_set, hd, WorkerPC.rank, DispPC.rank] at this ⊢
    omega

theorem producer_getElem? (N n : Nat) :
    (producer N)[n]? =
      if n < N then some (Op.submit n) else if n = N then some Op.stop else none := by
  unfold producer
  by_cases h : n < N
  · rw [List.getElem?_append_left (by simpa using h)]
    simp [h]
  · rw [List.getElem?_append_right (by simpa using h)]
    simp only [List.length_map, List.length_range, h, if_false]
    by_cases h2 : n = N
    · subst h2; simp
    · have : n - N ≠ 0 := by omega
      obtain ⟨m, hm⟩ : ∃ m, n - N = m + 1 := ⟨n - N - 1, by omega⟩
      simp [h2, hm]

theorem drop_eq_cons {α : Type} {l : List α} {n : Nat} {x : α} {rest : List α}
    (h : l.drop n = x :: rest) : l[n]? = some x ∧ l.drop (n + 1) = rest := by
  constructor
  · have := List.getElem?_drop (L := l) (i := n) (j := 0)
    rw [h] at this
    simpa using this.symm
  · have : (l.drop n).drop 1 = l.drop (n + 1) := by rw [List.drop_drop, Nat.add_comm]
    rw [← this, h]
    rfl

theorem producer_drop_all (N : Nat) : (producer N).drop (N + 1) = [] :=
  List.drop_eq_nil_of_le (by simp [producer])

theorem producer_drop_submit {N n j : Nat} {rest : List Op}
    (h : (producer N).drop n = Op.submit j :: rest) :
    j = n ∧ n < N ∧ (producer N).drop (n + 1) = rest := by
  obtain ⟨h1, h2⟩ := drop_eq_cons h
  rw [producer_getElem?] at h1
  split at h1
  · rename_i hlt
    cases h1
    exact ⟨rfl, hlt, h2⟩
  · split at h1 <;> cases h1

theorem producer_drop_stop {N n : Nat} {rest : List Op}
    (h : (producer N).drop n = Op.stop :: rest) : n = N ∧ rest = [] := by
  obtain ⟨h1, h2⟩ := drop_eq_cons h
  rw [producer_getElem?] at h1
  split at h1
  · cases h1
  · split at h1
    · rename_i heq
      refine ⟨heq, ?_⟩
      rw [← h2, heq]
      simp [producer]
    · cases h1

theorem producerInv_init (W N : Nat) : ProducerInv N (initState W [producer N]) :=
  ⟨⟨.idle, producer N⟩, 0, rfl, rfl, Or.inl ⟨Nat.zero_le _, rfl, rfl⟩⟩

theorem single_client {s : State} {cl cl' : Client} {c : Nat} (h : s.clients = [cl])
    (hc : s.clients[c]? = some cl') : c = 0 ∧ cl' = cl := by
  rw [h] at hc
  cases c with
  | zero => simp at hc; exact ⟨rfl, hc.symm⟩
  | succ c => simp at hc

theorem producerOk_congr {N : Nat} {s s' : State} {pc : ClientPC} {n : Nat}
    (h1 : s'.accepted = s.accepted) (h2 : s'.stopCalled = s.stopCalled)
    (h3 : s'.stopReturned = s.stopReturned) (h4 : s'.disp.stopPhase = s.disp.stopPhase)
    (h5 : s'.internalQueueClosed = s.internalQueueClosed) (h : producerOk N s pc n) :
    producerOk N s' pc n := by
  cases pc <;> simp only [producerOk, h1, h2, h3, h4, h5] at h ⊢ <;> exact h

theorem producerInv_step {N : Nat} {s s' : State} (h : ProducerInv N s) (hi : Inv s)
    (hs : Step s s') : ProducerInv N s' := by
  obtain ⟨cl, n, hcl, hprog, hok⟩ := h
  have hflag := hi.flag
  have hcore := hi.core
  cases hs
  case spawn i hm hi' => exact ⟨cl, n, hcl, hprog, producerOk_congr (s := s) rfl rfl rfl rfl rfl hok⟩
  case spawnDone i hm hi' => exact ⟨cl, n, hcl, hprog, producerOk_congr (s := s) rfl rfl rfl rfl rfl hok⟩
  case goDispatch hm =>
    have hdm := hcore.dm
    rw [hm] at hdm
    simp only [dispOk] at hdm
    exact ⟨cl, n, hcl, hprog, producerOk_congr (s := s) rfl rfl rfl (by dsimp only; rw [hdm]; rfl) rfl hok⟩
  case newMutex hm => exact ⟨cl, n, hcl, hprog, producerOk_congr (s := s) rfl rfl rfl rfl rfl hok⟩
  case setStopped hm hx => exact ⟨cl, n, hcl, hprog, producerOk_congr (s := s) rfl rfl rfl rfl rfl hok⟩
  case dispAdd hd =>
    exact ⟨cl, n, hcl, hprog, producerOk_congr (s := s) rfl rfl rfl (by dsimp only; rw [hd]; rfl) rfl hok⟩
  case recvClosed hd hq =>
    exact ⟨cl, n, hcl, hprog, producerOk_congr (s := s) rfl rfl rfl (by dsimp only; rw [hd]; rfl) rfl hok⟩
  case checkout j w rest hd hp =>
    exact ⟨cl, n, hcl, hprog, producerOk_congr (s := s) rfl rfl rfl (by dsimp only; rw [hd]; rfl) rfl hok⟩
  case stopLoopDone i hd hi' =>
    exact ⟨cl, n, hcl, hprog, producerOk_congr (s := s) rfl rfl rfl (by dsimp only; rw [hd]; rfl) rfl hok⟩
  case waitWorkers hd hz =>
    exact ⟨cl, n, hcl, hprog, producerOk_congr (s := s) rfl rfl rfl (by dsimp only; rw [hd]; rfl) rfl hok⟩
  case dispDonePanic hd hz =>
    have := hcore.dwg
    rw [hd, hz] at this
    simp [DispPC.counted] at this
  case dispDone hd hz =>
    exact ⟨cl, n, hcl, hprog, producerOk_congr (s := s) rfl rfl rfl (by dsimp only; rw [hd]; rfl) rfl hok⟩
  case workerAdd i hw => exact ⟨cl, n, hcl, hprog, producerOk_congr (s := s) rfl rfl rfl rfl rfl hok⟩
  case register i hw hp => exact ⟨cl, n, hcl, hprog, producerOk_congr (s := s) rfl rfl rfl rfl rfl hok⟩
  case finish i j hw => exact ⟨cl, n, hcl, hprog, producerOk_congr (s := s) rfl rfl rfl rfl rfl hok⟩
  case workerDonePanic i hw hz =>
    exact ⟨cl, n, hcl, hprog, producerOk_congr (s := s) rfl rfl rfl rfl rfl hok⟩
  case workerDone i hw hz =>
    exact ⟨cl, n, hcl, hprog, producerOk_congr (s := s) rfl rfl rfl rfl rfl hok⟩
  case assign j w hd hw =>
    exact ⟨cl, n, hcl, hprog, producerOk_congr (s := s) rfl rfl rfl (by dsimp only; rw [hd]; rfl) rfl hok⟩
  case begin i j hw =>
    exact ⟨cl, n, hcl, hprog, producerOk_congr (s := s) rfl rfl rfl rfl rfl hok⟩
  case beginNil i hw =>
    exact ⟨cl, n, hcl, hprog, producerOk_congr (s := s) rfl rfl rfl rfl rfl hok⟩
  case stopWorker i hd hw =>
    exact ⟨cl, n, hcl, hprog, producerOk_congr (s := s) rfl rfl rfl (by dsimp only; rw [hd]; rfl) rfl hok⟩
  case submitNil c cl' j rest hm hc hpc hpr hx =>
    have := hflag.mutex (Or.inr hm)
    rw [hx] at this
    cases this
  case stopNil c cl' rest hm hc hpc hpr hx =>
    have := hflag.mutex (Or.inr hm)
    rw [hx] at this
    cases this
  case submitDropped c cl' j rest hm hc hpc hpr hx hst =>
    obtain ⟨rfl, rfl⟩ := single_client hcl hc
    have hcalled := hflag.flagSet hst
    rw [hpc] at hok
    rw [hpr] at hprog
    rcases hok with ⟨_, _, h3⟩ | ⟨h1, _, _⟩
    · rw [hcalled] at h3; cases h3
    · subst h1
      rw [producer_drop_all] at hprog
      cases hprog
  case submitEnter c cl' j rest hm hc hpc hpr hx hst =>
    obtain ⟨rfl, rfl⟩ := single_client hcl hc
    rw [hpc] at hok
    rw [hpr] at hprog
    obtain ⟨rfl, hlt, hrest⟩ := producer_drop_submit hprog.symm
    refine ⟨⟨.sending j, rest⟩, j + 1, by simp [hcl], hrest.symm, ?_⟩
    rcases hok with ⟨_, h2, h3⟩ | ⟨h1, _, _⟩
    · exact ⟨rfl, hlt, h2, h3⟩
    · omega
  case stopEnter c cl' rest hm hc hpc hpr hx =>
    obtain ⟨rfl, rfl⟩ := single_client hcl hc
    rw [hpc] at hok
    rw [hpr] at hprog
    obtain ⟨rfl, rfl⟩ := producer_drop_stop hprog.symm
    refine ⟨⟨.stopQuit, []⟩, n + 1, by simp [hcl], by simp [producer], ?_⟩
    rcases hok with ⟨_, h2, h3⟩ | ⟨h1, _, _⟩
    · refine ⟨rfl, h2, ?_, ?_⟩
      · cases hph : s.disp.stopPhase
        · rfl
        · rw [hflag.phase hph] at h3; cases h3
      · cases hr : s.stopReturned
        · rfl
        · rw [hflag.ret hr] at h3; cases h3
    · omega
  case sendClosed c cl' j hm hc hpc hq =>
    obtain ⟨rfl, rfl⟩ := single_client hcl hc
    rw [hpc] at hok
    obtain ⟨_, _, _, h4⟩ := hok
    have hd := hcore.closed hq
    have := hflag.phase (by rw [hd]; rfl)
    rw [this] at h4
    cases h4
  case stopWaitDone c cl' hm hc hpc hz =>
    obtain ⟨rfl, rfl⟩ := single_client hcl hc
    rw [hpc] at hok
    exact ⟨⟨.stopClose, cl'.prog⟩, n, by simp [hcl], hprog, hok⟩
  case closeClosed c cl' hm hc hpc hq =>
    obtain ⟨rfl, rfl⟩ := single_client hcl hc
    rw [hpc] at hok
    obtain ⟨_, _, h3, _⟩ := hok
    rw [hq] at h3
    cases h3
  case close c cl' hm hc hpc hq =>
    obtain ⟨rfl, rfl⟩ := single_client hcl hc
    rw [hpc] at hok
    obtain ⟨h1, h2, _, _⟩ := hok
    exact ⟨⟨.idle, cl'.prog⟩, n, by simp [hcl], hprog, Or.inr ⟨h1, h2, rfl⟩⟩
  case submit c j rest hc hd hq =>
    obtain ⟨rfl, rfl⟩ := single_client hcl hc
    obtain ⟨rfl, hlt, hacc, hcalled⟩ := hok
    refine ⟨⟨.idle, rest⟩, j + 1, by simp [hcl], hprog, Or.inl ⟨hlt, ?_, hcalled⟩⟩
    show s.accepted ++ [j] = List.range (j + 1)
    rw [hacc, List.range_succ]
  case quit c rest hc hd =>
    obtain ⟨rfl, rfl⟩ := single_client hcl hc
    obtain ⟨h1, h2, _, h4⟩ := hok
    refine ⟨⟨.stopWait, rest⟩, n, by simp [hcl], hprog, h1, h2, ?_, h4⟩
    show s.internalQueueClosed = false
    cases hq : s.internalQueueClosed
    · rfl
    · have := hcore.closed hq
      rw [hd] at this
      cases this

theorem producerInv_of_reachable {W N : Nat} {s : State}
    (h : Reachable (initState W [producer N]) s) : ProducerInv N s ∧ Inv s :=
  Reachable.invariant (P := fun s => ProducerInv N s ∧ Inv s)
    ⟨producerInv_init W N, inv_init W _⟩
    (fun _ _ hp hs => ⟨producerInv_step hp.1 hp.2 hs, inv_step hp.2 hs⟩) h

theorem enabled_of_isSome {s : State} (l : Label) (h : (step l s).isSome = true) :
    ∃ l s', step l s = some s' :=
  let ⟨a, ha⟩ := Option.isSome_iff_exists.mp h
  ⟨l, a, ha⟩

theorem pool_length_lt {s : State} (hpool : PoolInv s) {i : Nat}
    (hw : s.workers[i]? = some .register) : s.readyPool.length < s.workers.length := by
  have hi : i < s.workers.length := (List.getElem?_eq_some_iff.mp hw).1
  have hsub : s.readyPool ⊆ (List.range s.workers.length).erase i := by
    intro w hmem
    obtain ⟨pc, hpc, hor⟩ := hpool.pmem w hmem
    have hne : w ≠ i := by
      rintro rfl
      rw [hw] at hpc
      cases hpc
      simp at hor
    rw [List.mem_erase_of_ne hne]
    exact List.mem_range.mpr (List.getElem?_eq_some_iff.mp hpc).1
  have h1 := (List.subperm_of_subset hpool.nodup hsub).length_le
  rw [List.length_erase_of_mem (List.mem_range.mpr hi), List.length_range] at h1
  omega

theorem main_enabled {s : State} (hf : FlagInv s) (hm : s.main ≠ .returned) :
    ∃ l s', step l s = some s' := by
  refine enabled_of_isSome .main ?_
  simp only [step, startStep]
  cases hmain : s.main with
  | startWorkers i => dsimp only; split <;> rfl
  | goDispatch => rfl
  | newMutex => rfl
  | setStopped =>
    have := hf.mutex (Or.inl hmain)
    simp [JobQueue.setStopped, this]
  | returned => exact absurd hmain hm

theorem worker_enabled {s : State} (hi : Inv s) (hm : s.main = .returned) {i : Nat}
    {pc : WorkerPC} (hw : s.workers[i]? = some pc) (h1 : pc ≠ .select) (h2 : pc ≠ .exited) :
    ∃ l s', step l s = some s' := by
  refine enabled_of_isSome (.worker i) ?_
  simp only [step, workerStep, hw]
  cases pc with
  | unspawned =>
    have := hi.core.spawn i _ hw
    rw [hm] at this
    simp [spawnOk] at this
  | add => rfl
  | register =>
    have := pool_length_lt hi.pool hw
    rw [hi.core.len] at this
    simp [this]
  | select => exact absurd rfl h1
  | received j => cases j <;> rfl
  | processing j => rfl
  | exiting => dsimp only; split <;> rfl
  | exited => exact absurd rfl h2
  | panicked => exact absurd rfl (hi.core.nowp _ (List.getElem?_mem hw))

theorem quiet_enabled {W N : Nat} {s : State} (hW : 1 ≤ W) (hlen : s.workers.length = W)
    (hi : Inv s) (hp : ProducerInv N s) (hm : s.main = .returned)
    (hnr : s.stopReturned = false)
    (hall : ∀ (i : Nat) (pc : WorkerPC), s.workers[i]? = some pc → pc = .select ∨ pc = .exited) :
    ∃ l s', step l s = some s' := by
  obtain ⟨⟨pc, prog⟩, n, hcl, hprog, hok⟩ := hp
  have hc0 : s.clients[0]? = some ⟨pc, prog⟩ := by simp [hcl]
  have hmem : (⟨pc, prog⟩ : Client) ∈ s.clients := by simp [hcl]
  have hmutex := hi.flag.mutex (Or.inr hm)
  dsimp only at hprog hok
  cases hd : s.disp with
  | unspawned =>
    have := hi.core.dm
    rw [hm, hd] at this
    simp [dispOk] at this
  | add => exact enabled_of_isSome .dispatcher (by simp [step, dispatchStep, hd])
  | select =>
    cases pc with
    | idle =>
      rcases hok with ⟨hn, _, _⟩ | ⟨_, _, hr⟩
      · have hlt : n < (producer N).length := by simp [producer]; omega
        have hdrop := List.drop_eq_getElem_cons hlt
        rw [hdrop] at hprog
        refine enabled_of_isSome (.client 0) ?_
        simp only [step, clientStep, hm, if_true, hc0, hprog]
        cases (producer N)[n] with
        | submit j =>
          simp only [JobQueue.getStopped, hmutex, if_true]
          cases s.stopped <;> rfl
        | stop => simp [JobQueue.setStopped, hmutex]
      · rw [hr] at hnr; cases hnr
    | sending j =>
      cases hq : s.internalQueueClosed
      · exact enabled_of_isSome (.submit 0) (by simp [step, submitRendezvous, hc0, hd, hq])
      · exact enabled_of_isSome (.client 0) (by simp [step, clientStep, hm, hc0, hq])
    | stopQuit => exact enabled_of_isSome (.quit 0) (by simp [step, quitRendezvous, hc0, hd])
    | stopWait =>
      have := hi.core.cw _ hmem (Or.inl rfl)
      rw [hd] at this
      cases this
    | stopClose =>
      have := hi.core.cw _ hmem (Or.inr rfl)
      rw [hd] at this
      cases this
    | panicked => exact hok.elim
  | haveJob j =>
    have h0 : 0 < s.workers.length := by omega
    have hw0 : s.workers[0]? = some s.workers[0] := List.getElem?_eq_getElem h0
    have hg := hi.core.gone 0 _ hw0
    rw [hd] at hg
    simp only [goneOk] at hg
    have hsel : s.workers[0]? = some .select := by
      rcases hall 0 _ hw0 with h | h
      · rw [h] at hw0; exact hw0
      · rw [h] at hg; cases hg
    rcases hi.pool.sel 0 hsel with hin | ⟨j', hj'⟩
    · cases hpool : s.readyPool with
      | nil => rw [hpool] at hin; cases hin
      | cons w rest =>
        exact enabled_of_isSome .dispatcher (by simp [step, dispatchStep, hd, hpool])
    · rw [hd] at hj'; cases hj'
  | haveWorker j w =>
    have hw := (hi.pool.hw j w hd).1
    refine enabled_of_isSome .assign ?_
    simp only [step, assignRendezvous, hd, hw]
    cases j <;> rfl
  | stopping i =>
    by_cases hlt : i < s.workers.length
    · have hwi : s.workers[i]? = some s.workers[i] := List.getElem?_eq_getElem hlt
      have hg := hi.core.gone i _ hwi
      rw [hd] at hg
      simp only [goneOk, lt_self_iff_false, iff_false] at hg
      have hsel : s.workers[i]? = some .select := by
        rcases hall i _ hwi with h | h
        · rw [h] at hwi; exact hwi
        · rw [h] at hg; exact absurd rfl hg
      exact enabled_of_isSome .stopWorker (by simp [step, stopWorkerRendezvous, hd, hsel])
    · exact enabled_of_isSome .dispatcher (by simp [step, dispatchStep, hd, hlt])
  | waitWorkers =>
    have hz : s.workersStopped = 0 := by
      rw [hi.core.wg, List.countP_eq_zero]
      intro pc' hpc'
      obtain ⟨k, hk⟩ := List.mem_iff_getElem?.mp hpc'
      have hg := hi.core.gone k pc' hk
      rw [hd] at hg
      simp only [goneOk] at hg
      rcases hall k pc' hk with h | h
      · rw [h] at hg; cases hg
      · rw [h]; simp [WorkerPC.inWaitGroup]
    exact enabled_of_isSome .dispatcher (by simp [step, dispatchStep, hd, hz])
  | done =>
    refine enabled_of_isSome .dispatcher ?_
    simp only [step, dispatchStep, hd]
    split <;> rfl
  | exited =>
    have hcalled := hi.flag.phase (by rw [hd]; rfl)
    cases pc with
    | idle =>
      rcases hok with ⟨_, _, h3⟩ | ⟨_, _, hr⟩
      · rw [hcalled] at h3; cases h3
      · rw [hr] at hnr; cases hnr
    | sending j =>
      obtain ⟨_, _, _, h4⟩ := hok
      rw [hcalled] at h4; cases h4
    | stopQuit =>
      obtain ⟨_, _, h3, _⟩ := hok
      rw [hd] at h3; cases h3
    | stopWait =>
      have hz : s.dispatcherStopped = 0 := by
        rw [hi.core.dwg, hd]; rfl
      exact enabled_of_isSome (.client 0) (by simp [step, clientStep, hm, hc0, hz])
    | stopClose =>
      refine enabled_of_isSome (.client 0) ?_
      simp only [step, clientStep, hm, if_true, hc0]
      split <;> rfl
    | panicked => exact hok.elim
  | panicked => exact absurd hd hi.core.nodp

theorem producer_progress {W N : Nat} {s : State} (hW : 1 ≤ W) (hlen : s.workers.length = W)
    (hi : Inv s) (hp : ProducerInv N s) (hnr : s.stopReturned = false) :
    ∃ l s', step l s = some s' := by
  by_cases hm : s.main = .returned
  · by_cases hex : ∃ (i : Nat) (pc : WorkerPC),
        s.workers[i]? = some pc ∧ pc ≠ .select ∧ pc ≠ .exited
    · obtain ⟨i, pc, hw, h1, h2⟩ := hex
      exact worker_enabled hi hm hw h1 h2
    · refine quiet_enabled hW hlen hi hp hm hnr ?_
      intro i pc hw
      by_contra hne
      exact hex ⟨i, pc, hw, fun h => hne (Or.inl h), fun h => hne (Or.inr h)⟩
  · exact main_enabled hi.flag hm

/-- C1. One producer submits the jobs `0 … N-1` one after another and then
calls `Stop`, on a queue of `W ≥ 1` workers.  In every reachable state: if
`Stop` has returned, the jobs whose `Process` began, and those whose `Process`
returned, are exactly the `N` jobs, each once; if `Stop` has not returned, some
goroutine can take a step; and every step lowers `State.measure`.  So every
execution, whatever the interleaving, is finite, ends only when `Stop` has
returned, and by then every job has been processed exactly once. -/
theorem all_jobs_processed_once (W N : Nat) (hW : 1 ≤ W) (s : State)
    (h : Reachable (initState W [producer N]) s) :
    (s.stopReturned = true →
      s.started.Perm (List.range N) ∧ s.finished.Perm (List.range N) ∧
      (∀ j, j < N → s.started.count j = 1 ∧ s.finished.count j = 1) ∧
      (∀ j, N ≤ j → s.started.count j = 0 ∧ s.finished.count j = 0)) ∧
    (s.stopReturned = false → ∃ l s', step l s = some s') ∧
    (∀ l s', step l s = some s' → s'.measure < s.measure) := by
  obtain ⟨hp, hi⟩ := producerInv_of_reachable h
  refine ⟨?_, ?_, ?_⟩
  · intro hr
    obtain ⟨hd, hall, hact⟩ := active_nil_of_stopReturned h hr
    have hsta : s.started.Perm s.finished := by
      have := hi.jobs.sta
      rwa [hact, List.append_nil] at this
    have hin : s.inWorkers = [] := by
      unfold State.inWorkers
      rw [List.filterMap_eq_nil_iff]
      intro pc hpc
      rw [hall pc hpc]
      rfl
    have hacc : s.accepted.Perm s.started := by
      have := hi.jobs.acc
      rw [hd, hin] at this
      exact (by simpa [DispPC.held] using this : s.accepted.Perm s.finished).trans hsta.symm
    have hrange : s.accepted = List.range N := by
      obtain ⟨cl, n, hcl, _, hok⟩ := hp
      have hcalled := hi.flag.ret hr
      cases hpc : cl.pc <;> rw [hpc] at hok <;> simp only [producerOk] at hok
      · rcases hok with ⟨_, _, h3⟩ | ⟨_, h2, _⟩
        · rw [hcalled] at h3; cases h3
        · exact h2
      · rw [hcalled] at hok; exact absurd hok.2.2.2 (by simp)
      · rw [hr] at hok; exact absurd hok.2.2.2 (by simp)
      · rw [hr] at hok; exact absurd hok.2.2.2 (by simp)
      · rw [hr] at hok; exact absurd hok.2.2.2 (by simp)
    have h1 : s.started.Perm (List.range N) := hrange ▸ hacc.symm
    have h2 : s.finished.Perm (List.range N) := hsta.symm.trans h1
    refine ⟨h1, h2, ?_, ?_⟩
    · intro j hj
      rw [h1.count_eq, h2.count_eq]
      have := List.count_eq_one_of_mem (List.nodup_range N) (List.mem_range.mpr hj)
      exact ⟨this, this⟩
    · intro j hj
      rw [h1.count_eq, h2.count_eq]
      have : List.count j (List.range N) = 0 :=
        List.count_eq_zero_of_not_mem (fun hm => by
          have := List.mem_range.mp hm
          omega)
      exact ⟨this, this⟩
  · intro hnr
    exact producer_progress hW (workers_length_of_reachable h) hi hp hnr
  · intro l s' hs
    exact measure_step hi.core (Step.of_step hs)

theorem all_jobs_processed_once_witness :
    1 ≤ 1 ∧
    (exec fullSchedule (initState 1 [producer 1])).stopReturned = true ∧
    (exec fullSchedule (initState 1 [producer 1])).finished = [0] ∧
    (exec fullSchedule (initState 1 [producer 1])).started.count 0 = 1 ∧
    (exec fullSchedule (initState 1 [producer 1])).finished.count 0 = 1 :=
  ⟨by decide, rfl, rfl,
    ((all_jobs_processed_once 1 1 (by decide) _ (reachable_exec fullSchedule _)).1 rfl).2.2.1 0
      (by decide)⟩

end Kyoo
